import Mathlib

/-!
Verification of the turbo turn-based game engine core: the minimax /
alpha-beta AI, the MCTS AI, the greedy AI, the game state manager with
undo/redo history, and the game controller's action/turn protocol.

Numbers: the engine computes with JS doubles; scores here are modelled as
rationals (every finite double is a rational) and the sentinels
`Number.NEGATIVE_INFINITY` / `Number.POSITIVE_INFINITY` as the bottom and
top elements of `WithBot (WithTop ℚ)`.
-/

/-- Extended value domain: rational scores plus the two infinities used as
search sentinels by `MinimaxAI.minimax` and `MCTSNode.getUCB1Value`. -/
abbrev EVal : Type := WithBot (WithTop ℚ)

/-- A finite score embedded into the extended domain. -/
def finE (q : ℚ) : EVal := ((q : WithTop ℚ) : EVal)

/-- `Number.NEGATIVE_INFINITY`. -/
def negInf : EVal := ⊥

/-- `Number.POSITIVE_INFINITY`. -/
def posInf : EVal := ⊤

theorem finE_ne_bot (q : ℚ) : finE q ≠ negInf := by
  simp [finE, negInf]

theorem finE_ne_top (q : ℚ) : finE q ≠ posInf := by
  simp only [finE, posInf]
  intro h
  rw [show (⊤ : EVal) = ((⊤ : WithTop ℚ) : EVal) from rfl] at h
  exact WithTop.coe_ne_top (WithBot.coe_eq_coe.mp h)

/-- `value + noise` on extended values: adding a finite noise term leaves
both infinities unchanged, as IEEE addition does. -/
def addNoiseE (v : EVal) (n : ℚ) : EVal :=
  WithBot.map (fun w => WithTop.map (fun q => q + n) w) v

theorem addNoiseE_zero (v : EVal) : addNoiseE v 0 = v := by
  cases v with
  | none => rfl
  | some w =>
    cases w with
    | top => rfl
    | coe q =>
      simp only [addNoiseE, WithBot.map, WithTop.map, Option.map, add_zero]
      rfl

/-!  ## Minimax AI (src/ai/MinimaxAI.ts)

The abstract class `MinimaxAI` is parameterized by its game-specific
methods; we collect the abstract methods plus the inherited `BaseAI`
fields it uses into one structure.  `players` models
`state.players.map(p => p.id)`. -/

structure MinimaxGame (State Action : Type) where
  playerId : String
  players : State → List String
  simulateAction : Action → State → State
  getActionsForState : State → Option String → List Action
  isTerminalState : State → Bool
  evaluateState : State → ℚ

namespace MinimaxGame

variable {State Action : Type}

/-- `BaseAI.getOpponentIds`: ids of all players other than the AI. -/
def getOpponentIds (g : MinimaxGame State Action) (s : State) : List String :=
  (g.players s).filter (fun p => p ≠ g.playerId)

/-- The player searched at a ply:
`maximizingPlayer ? this.playerId : this.getOpponentIds(state)[0]`.
Indexing `[0]` of an empty JS array yields `undefined`, modelled as
`none`. -/
def currentSearchPlayer (g : MinimaxGame State Action) (s : State)
    (maximizing : Bool) : Option String :=
  if maximizing then some g.playerId else (g.getOpponentIds s).head?

/-- `this.evaluateState(state)` as an extended value. -/
def evalE (g : MinimaxGame State Action) (s : State) : EVal :=
  finE (g.evaluateState s)

end MinimaxGame

/-- The maximizing branch of `MinimaxAI.minimax`: iterate over `actions`,
tracking the running max and `alpha`, breaking on `beta <= alpha`.
`child` is the recursive call at the next depth (`maximizing = false`). -/
def abMaxLoop {State Action : Type} (g : MinimaxGame State Action)
    (child : State → EVal → EVal → EVal) (s : State) :
    List Action → EVal → EVal → EVal → EVal
  | [], maxEval, _alpha, _beta => maxEval
  | a :: rest, maxEval, alpha, beta =>
    let v := child (g.simulateAction a s) alpha beta
    let maxEval' := max maxEval v
    let alpha' := max alpha v
    if beta ≤ alpha' then maxEval'
    else abMaxLoop g child s rest maxEval' alpha' beta

/-- The minimizing branch of `MinimaxAI.minimax`, symmetric with min and
`beta`, breaking on `beta <= alpha`. -/
def abMinLoop {State Action : Type} (g : MinimaxGame State Action)
    (child : State → EVal → EVal → EVal) (s : State) :
    List Action → EVal → EVal → EVal → EVal
  | [], minEval, _alpha, _beta => minEval
  | a :: rest, minEval, alpha, beta =>
    let v := child (g.simulateAction a s) alpha beta
    let minEval' := min minEval v
    let beta' := min beta v
    if beta' ≤ alpha then minEval'
    else abMinLoop g child s rest minEval' alpha beta'

/-- `MinimaxAI.minimax(state, depth, alpha, beta, maximizingPlayer)`:
depth-bounded minimax with alpha-beta pruning, sentinel start values
`±Infinity`. -/
def minimax {State Action : Type} (g : MinimaxGame State Action) :
    Nat → State → EVal → EVal → Bool → EVal
  | 0, s, _alpha, _beta, _maximizing => g.evalE s
  | d + 1, s, alpha, beta, maximizing =>
    if g.isTerminalState s then g.evalE s
    else
      let actions := g.getActionsForState s (g.currentSearchPlayer s maximizing)
      if maximizing then
        abMaxLoop g (fun s' al be => minimax g d s' al be false) s actions negInf alpha beta
      else
        abMinLoop g (fun s' al be => minimax g d s' al be true) s actions posInf alpha beta

/-- Unpruned minimax, the comparison point of the refinement claim: the
same search without the `beta <= alpha` cutoffs, i.e. a plain fold of
max (resp. min) over all children. -/
def minimaxUnpruned {State Action : Type} (g : MinimaxGame State Action) :
    Nat → State → Bool → EVal
  | 0, s, _maximizing => g.evalE s
  | d + 1, s, maximizing =>
    if g.isTerminalState s then g.evalE s
    else
      let actions := g.getActionsForState s (g.currentSearchPlayer s maximizing)
      if maximizing then
        actions.foldl (fun m a => max m (minimaxUnpruned g d (g.simulateAction a s) false)) negInf
      else
        actions.foldl (fun m a => min m (minimaxUnpruned g d (g.simulateAction a s) true)) posInf

/-- Helper for the first-max scan: carries the best pair seen so far.
Strict `>` comparison, so the earliest maximal element survives. -/
def selectScan {α : Type} : α × EVal → List (α × EVal) → α × EVal
  | best, [] => best
  | best, x :: xs => selectScan (if best.2 < x.2 then x else best) xs

/-- Model of `.sort((a, b) => b.value - a.value)` followed by `[0]`: JS
`Array.prototype.sort` is stable, so the head of the descending sort is
the first element attaining the greatest value. -/
def selectBest {α : Type} : List (α × EVal) → Option α
  | [] => none
  | x :: xs => some (selectScan x xs).1

/-- Root evaluation loop of `MinimaxAI.chooseAction`: each root action is
simulated, searched with a full `(-∞, +∞)` window at `maxDepth - 1` with
the opponent to move, and perturbed by
`addNoise(value, 10) = value + (draw - 0.5) * 10 * noiseFactor` where
`draw` is the `Math.random()` sample for that action. -/
def rootValues {State Action : Type} (g : MinimaxGame State Action)
    (d : Nat) (s : State) (actions : List Action) (draws : Nat → ℚ)
    (noiseFactor : ℚ) : List (Action × EVal) :=
  actions.enum.map (fun p =>
    (p.2, addNoiseE (minimax g d (g.simulateAction p.2 s) negInf posInf false)
      ((draws p.1 - 1/2) * 10 * noiseFactor)))

/-- `MinimaxAI.chooseAction` with alpha-beta pruning. -/
def chooseActionMinimax {State Action : Type} (g : MinimaxGame State Action)
    (maxDepth : Nat) (s : State) (availableActions : List Action)
    (draws : Nat → ℚ) (noiseFactor : ℚ) : Option Action :=
  if availableActions.isEmpty then none
  else selectBest (rootValues g (maxDepth - 1) s availableActions draws noiseFactor)

/-- Root values of the unpruned search (same noise, same selection). -/
def rootValuesUnpruned {State Action : Type} (g : MinimaxGame State Action)
    (d : Nat) (s : State) (actions : List Action) (draws : Nat → ℚ)
    (noiseFactor : ℚ) : List (Action × EVal) :=
  actions.enum.map (fun p =>
    (p.2, addNoiseE (minimaxUnpruned g d (g.simulateAction p.2 s) false)
      ((draws p.1 - 1/2) * 10 * noiseFactor)))

/-- `chooseAction` driven by the unpruned search. -/
def chooseActionUnpruned {State Action : Type} (g : MinimaxGame State Action)
    (maxDepth : Nat) (s : State) (availableActions : List Action)
    (draws : Nat → ℚ) (noiseFactor : ℚ) : Option Action :=
  if availableActions.isEmpty then none
  else selectBest (rootValuesUnpruned g (maxDepth - 1) s availableActions draws noiseFactor)

/-! ### Alpha-beta soundness

The pruned search is fail-soft: with window `(alpha, beta)` it returns a
value that agrees with the unpruned value whenever that value lies
strictly inside the window, and fails low (resp. high) when the unpruned
value is at most `alpha` (resp. at least `beta`).  With the full window
`(-∞, +∞)` used at the root the two searches therefore agree exactly. -/

theorem foldlMax_seed {α : Type} (f : α → EVal) (as : List α) :
    ∀ (m : EVal),
      as.foldl (fun m a => max m (f a)) m =
        max m (as.foldl (fun m a => max m (f a)) negInf) := by
  induction as with
  | nil =>
    intro m
    simp only [List.foldl_nil, negInf]
    exact (max_eq_left bot_le).symm
  | cons a as ih =>
    intro m
    simp only [List.foldl_cons]
    rw [ih (max m (f a)), ih (max negInf (f a))]
    simp only [negInf]
    rw [max_eq_right (bot_le : (⊥ : EVal) ≤ f a), max_assoc]

theorem foldlMin_seed {α : Type} (f : α → EVal) (as : List α) :
    ∀ (m : EVal),
      as.foldl (fun m a => min m (f a)) m =
        min m (as.foldl (fun m a => min m (f a)) posInf) := by
  induction as with
  | nil =>
    intro m
    simp only [List.foldl_nil, posInf]
    exact (min_eq_left le_top).symm
  | cons a as ih =>
    intro m
    simp only [List.foldl_cons]
    rw [ih (min m (f a)), ih (min posInf (f a))]
    simp only [posInf]
    rw [min_eq_right (le_top : f a ≤ (⊤ : EVal)), min_assoc]

theorem abMaxLoop_ge {State Action : Type} (g : MinimaxGame State Action)
    (child : State → EVal → EVal → EVal) (s : State) :
    ∀ (as : List Action) (maxEval alpha beta : EVal),
      maxEval ≤ abMaxLoop g child s as maxEval alpha beta
  | [], m, _, _ => le_refl m
  | a :: rest, m, alpha, beta => by
    simp only [abMaxLoop]
    split
    · exact le_max_left _ _
    · exact le_trans (le_max_left _ _) (abMaxLoop_ge g child s rest _ _ _)

theorem abMinLoop_le {State Action : Type} (g : MinimaxGame State Action)
    (child : State → EVal → EVal → EVal) (s : State) :
    ∀ (as : List Action) (minEval alpha beta : EVal),
      abMinLoop g child s as minEval alpha beta ≤ minEval
  | [], m, _, _ => le_refl m
  | a :: rest, m, alpha, beta => by
    simp only [abMinLoop]
    split
    · exact min_le_left _ _
    · exact le_trans (abMinLoop_le g child s rest _ _ _) (min_le_left _ _)

theorem abMaxLoop_spec {State Action : Type} (g : MinimaxGame State Action)
    (child : State → EVal → EVal → EVal) (pv : Action → EVal) (s : State)
    (hchild : ∀ (a : Action) (alpha beta : EVal), alpha < beta →
      (pv a ≤ alpha → child (g.simulateAction a s) alpha beta ≤ alpha) ∧
      (beta ≤ pv a → beta ≤ child (g.simulateAction a s) alpha beta) ∧
      (alpha < pv a → pv a < beta → child (g.simulateAction a s) alpha beta = pv a)) :
    ∀ (as : List Action) (maxEval alpha beta : EVal),
      alpha < beta → maxEval ≤ alpha →
      (as.foldl (fun m a => max m (pv a)) maxEval ≤ alpha →
        abMaxLoop g child s as maxEval alpha beta ≤ alpha) ∧
      (beta ≤ as.foldl (fun m a => max m (pv a)) maxEval →
        beta ≤ abMaxLoop g child s as maxEval alpha beta) ∧
      (alpha < as.foldl (fun m a => max m (pv a)) maxEval →
        as.foldl (fun m a => max m (pv a)) maxEval < beta →
        abMaxLoop g child s as maxEval alpha beta =
          as.foldl (fun m a => max m (pv a)) maxEval) := by
  intro as
  induction as with
  | nil =>
    intro maxEval alpha beta hab hme
    refine ⟨fun _ => hme, ?_, ?_⟩
    · intro hV
      exact absurd (lt_of_le_of_lt (le_trans hV hme) hab) (lt_irrefl beta)
    · intro hV _
      exact absurd (lt_of_lt_of_le hV hme) (lt_irrefl alpha)
  | cons a rest ih =>
    intro maxEval alpha beta hab hme
    have hstep : abMaxLoop g child s (a :: rest) maxEval alpha beta =
        (if beta ≤ max alpha (child (g.simulateAction a s) alpha beta) then
          max maxEval (child (g.simulateAction a s) alpha beta)
        else abMaxLoop g child s rest
          (max maxEval (child (g.simulateAction a s) alpha beta))
          (max alpha (child (g.simulateAction a s) alpha beta)) beta) := rfl
    have hfold : (a :: rest).foldl (fun m a => max m (pv a)) maxEval =
        max (max maxEval (pv a)) (rest.foldl (fun m a => max m (pv a)) negInf) := by
      simp only [List.foldl_cons]
      exact foldlMax_seed pv rest (max maxEval (pv a))
    set S := rest.foldl (fun m a => max m (pv a)) negInf with hS
    set rc := child (g.simulateAction a s) alpha beta with hrc
    rcases le_or_lt (pv a) alpha with hva | hva
    · -- child's unpruned value fails low: prune-free continuation
      have hrcle : rc ≤ alpha := (hchild a alpha beta hab).1 hva
      have halpha' : max alpha rc = alpha := max_eq_left hrcle
      have hnb : ¬ beta ≤ max alpha rc := by
        rw [halpha']; exact not_le.mpr hab
      rw [hstep, if_neg hnb, halpha']
      have hme' : max maxEval rc ≤ alpha := max_le hme hrcle
      have hrec := ih (max maxEval rc) alpha beta hab hme'
      have hfold' : rest.foldl (fun m a => max m (pv a)) (max maxEval rc) =
          max (max maxEval rc) S := foldlMax_seed pv rest (max maxEval rc)
      rw [hfold'] at hrec
      rw [hfold]
      have hx : max maxEval (pv a) ≤ alpha := max_le hme hva
      refine ⟨?_, ?_, ?_⟩
      · intro hV
        have hSle : S ≤ alpha := le_trans (le_max_right _ _) hV
        exact hrec.1 (max_le hme' hSle)
      · intro hV
        rcases le_max_iff.mp hV with h | h
        · exact absurd (lt_of_le_of_lt (le_trans h hx) hab) (lt_irrefl beta)
        · exact hrec.2.1 (le_trans h (le_max_right _ _))
      · intro hV1 hV2
        have hSgt : alpha < S := by
          rcases lt_max_iff.mp hV1 with h | h
          · exact absurd (lt_of_lt_of_le h hx) (lt_irrefl alpha)
          · exact h
        have hVS : max (max maxEval (pv a)) S = S :=
          max_eq_right (le_trans hx (le_of_lt hSgt))
        have hVS' : max (max maxEval rc) S = S :=
          max_eq_right (le_trans hme' (le_of_lt hSgt))
        rw [hVS] at hV2 ⊢
        rw [hVS'] at hrec
        exact hrec.2.2 hSgt hV2
    · rcases lt_or_le (pv a) beta with hvb | hvb
      · -- child value strictly inside the window: exact
        have hrceq : rc = pv a := (hchild a alpha beta hab).2.2 hva hvb
        have halpha' : max alpha rc = pv a := by
          rw [hrceq]; exact max_eq_right (le_of_lt hva)
        have hnb : ¬ beta ≤ max alpha rc := by
          rw [halpha']; exact not_le.mpr hvb
        have hme'' : max maxEval rc = pv a := by
          rw [hrceq]; exact max_eq_right (le_trans hme (le_of_lt hva))
        rw [hstep, if_neg hnb, halpha', hme'']
        have hrec := ih (pv a) (pv a) beta hvb (le_refl (pv a))
        have hfold' : rest.foldl (fun m a => max m (pv a)) (pv a) =
            max (pv a) S := foldlMax_seed pv rest (pv a)
        rw [hfold'] at hrec
        have hxeq : max (max maxEval (pv a)) S = max (pv a) S := by
          rw [max_eq_right (le_trans hme (le_of_lt hva))]
        rw [hfold, hxeq]
        refine ⟨?_, ?_, ?_⟩
        · intro hV
          have : pv a ≤ alpha := le_trans (le_max_left _ _) hV
          exact absurd (lt_of_lt_of_le hva this) (lt_irrefl alpha)
        · intro hV
          exact hrec.2.1 hV
        · intro hV1 hV2
          rcases lt_or_le (pv a) (max (pv a) S) with hc | hc
          · exact hrec.2.2 hc hV2
          · have hmax : max (pv a) S = pv a := le_antisymm hc (le_max_left _ _)
            rw [hmax]
            refine le_antisymm ?_ (abMaxLoop_ge g child s rest (pv a) (pv a) beta)
            rw [hmax] at hrec
            exact hrec.1 (le_refl (pv a))
      · -- child value fails high: beta cutoff fires
        have hrcge : beta ≤ rc := (hchild a alpha beta hab).2.1 hvb
        have hb : beta ≤ max alpha rc := le_trans hrcge (le_max_right _ _)
        rw [hstep, if_pos hb, hfold]
        have hpvV : pv a ≤ max (max maxEval (pv a)) S :=
          le_trans (le_max_right maxEval (pv a)) (le_max_left _ _)
        refine ⟨?_, ?_, ?_⟩
        · intro hV
          exact absurd (lt_of_le_of_lt (le_trans hvb (le_trans hpvV hV)) hab)
            (lt_irrefl beta)
        · intro _
          exact le_trans hrcge (le_max_right _ _)
        · intro _ hV2
          exact absurd (lt_of_le_of_lt (le_trans hvb hpvV) hV2) (lt_irrefl beta)

theorem abMinLoop_spec {State Action : Type} (g : MinimaxGame State Action)
    (child : State → EVal → EVal → EVal) (pv : Action → EVal) (s : State)
    (hchild : ∀ (a : Action) (alpha beta : EVal), alpha < beta →
      (pv a ≤ alpha → child (g.simulateAction a s) alpha beta ≤ alpha) ∧
      (beta ≤ pv a → beta ≤ child (g.simulateAction a s) alpha beta) ∧
      (alpha < pv a → pv a < beta → child (g.simulateAction a s) alpha beta = pv a)) :
    ∀ (as : List Action) (minEval alpha beta : EVal),
      alpha < beta → beta ≤ minEval →
      (as.foldl (fun m a => min m (pv a)) minEval ≤ alpha →
        abMinLoop g child s as minEval alpha beta ≤ alpha) ∧
      (beta ≤ as.foldl (fun m a => min m (pv a)) minEval →
        beta ≤ abMinLoop g child s as minEval alpha beta) ∧
      (alpha < as.foldl (fun m a => min m (pv a)) minEval →
        as.foldl (fun m a => min m (pv a)) minEval < beta →
        abMinLoop g child s as minEval alpha beta =
          as.foldl (fun m a => min m (pv a)) minEval) := by
  intro as
  induction as with
  | nil =>
    intro minEval alpha beta hab hbe
    refine ⟨?_, fun _ => hbe, ?_⟩
    · intro hV
      exact absurd (lt_of_lt_of_le hab (le_trans hbe hV)) (lt_irrefl alpha)
    · intro _ hV
      exact absurd (lt_of_le_of_lt hbe hV) (lt_irrefl beta)
  | cons a rest ih =>
    intro minEval alpha beta hab hbe
    have hstep : abMinLoop g child s (a :: rest) minEval alpha beta =
        (if min beta (child (g.simulateAction a s) alpha beta) ≤ alpha then
          min minEval (child (g.simulateAction a s) alpha beta)
        else abMinLoop g child s rest
          (min minEval (child (g.simulateAction a s) alpha beta))
          alpha (min beta (child (g.simulateAction a s) alpha beta))) := rfl
    have hfold : (a :: rest).foldl (fun m a => min m (pv a)) minEval =
        min (min minEval (pv a)) (rest.foldl (fun m a => min m (pv a)) posInf) := by
      simp only [List.foldl_cons]
      exact foldlMin_seed pv rest (min minEval (pv a))
    set S := rest.foldl (fun m a => min m (pv a)) posInf with hS
    set rc := child (g.simulateAction a s) alpha beta with hrc
    rcases le_or_lt beta (pv a) with hvb | hvb
    · -- child value fails high: prune-free continuation
      have hrcge : beta ≤ rc := (hchild a alpha beta hab).2.1 hvb
      have hbeta' : min beta rc = beta := min_eq_left hrcge
      have hnb : ¬ min beta rc ≤ alpha := by
        rw [hbeta']; exact not_le.mpr hab
      rw [hstep, if_neg hnb, hbeta']
      have hbe' : beta ≤ min minEval rc := le_min hbe hrcge
      have hrec := ih (min minEval rc) alpha beta hab hbe'
      have hfold' : rest.foldl (fun m a => min m (pv a)) (min minEval rc) =
          min (min minEval rc) S := foldlMin_seed pv rest (min minEval rc)
      rw [hfold'] at hrec
      rw [hfold]
      have hx : beta ≤ min minEval (pv a) := le_min hbe hvb
      refine ⟨?_, ?_, ?_⟩
      · intro hV
        rcases min_le_iff.mp hV with h | h
        · exact absurd (lt_of_lt_of_le hab (le_trans hx h)) (lt_irrefl alpha)
        · exact hrec.1 (le_trans (min_le_right _ _) h)
      · intro hV
        have hSge : beta ≤ S := (le_min_iff.mp hV).2
        exact hrec.2.1 (le_min hbe' hSge)
      · intro hV1 hV2
        have hSlt : S < beta := by
          rcases min_lt_iff.mp hV2 with h | h
          · exact absurd (lt_of_le_of_lt hx h) (lt_irrefl beta)
          · exact h
        have hVS : min (min minEval (pv a)) S = S :=
          min_eq_right (le_trans (le_of_lt hSlt) hx)
        have hVS' : min (min minEval rc) S = S :=
          min_eq_right (le_trans (le_of_lt hSlt) hbe')
        rw [hVS] at hV1 ⊢
        rw [hVS'] at hrec
        exact hrec.2.2 hV1 hSlt
    · rcases lt_or_le alpha (pv a) with hva | hva
      · -- child value strictly inside the window: exact
        have hrceq : rc = pv a := (hchild a alpha beta hab).2.2 hva hvb
        have hbeta' : min beta rc = pv a := by
          rw [hrceq]; exact min_eq_right (le_of_lt hvb)
        have hnb : ¬ min beta rc ≤ alpha := by
          rw [hbeta']; exact not_le.mpr hva
        have hme'' : min minEval rc = pv a := by
          rw [hrceq]; exact min_eq_right (le_trans (le_of_lt hvb) hbe)
        rw [hstep, if_neg hnb, hbeta', hme'']
        have hrec := ih (pv a) alpha (pv a) hva (le_refl (pv a))
        have hfold' : rest.foldl (fun m a => min m (pv a)) (pv a) =
            min (pv a) S := foldlMin_seed pv rest (pv a)
        rw [hfold'] at hrec
        have hxeq : min (min minEval (pv a)) S = min (pv a) S := by
          rw [min_eq_right (le_trans (le_of_lt hvb) hbe)]
        rw [hfold, hxeq]
        refine ⟨?_, ?_, ?_⟩
        · intro hV
          exact hrec.1 hV
        · intro hV
          have : beta ≤ pv a := le_trans hV (min_le_left _ _)
          exact absurd (lt_of_le_of_lt this hvb) (lt_irrefl beta)
        · intro hV1 hV2
          rcases lt_or_le (min (pv a) S) (pv a) with hc | hc
          · exact hrec.2.2 hV1 hc
          · have hmax : min (pv a) S = pv a := le_antisymm (min_le_left _ _) hc
            rw [hmax]
            refine le_antisymm (abMinLoop_le g child s rest (pv a) alpha (pv a)) ?_
            rw [hmax] at hrec
            exact hrec.2.1 (le_refl (pv a))
      · -- child value fails low: alpha cutoff fires
        have hrcle : rc ≤ alpha := (hchild a alpha beta hab).1 hva
        have hb : min beta rc ≤ alpha := le_trans (min_le_right _ _) hrcle
        rw [hstep, if_pos hb, hfold]
        have hpvV : min (min minEval (pv a)) S ≤ pv a :=
          le_trans (min_le_left _ _) (min_le_right minEval (pv a))
        refine ⟨?_, ?_, ?_⟩
        · intro _
          exact le_trans (min_le_right _ _) hrcle
        · intro hV
          exact absurd (lt_of_lt_of_le hab (le_trans hV (le_trans hpvV hva)))
            (lt_irrefl alpha)
        · intro hV1 _
          exact absurd (lt_of_lt_of_le hV1 (le_trans hpvV hva)) (lt_irrefl alpha)

theorem minimax_spec {State Action : Type} (g : MinimaxGame State Action) :
    ∀ (d : Nat) (s : State) (alpha beta : EVal) (maximizing : Bool),
      alpha < beta →
      (minimaxUnpruned g d s maximizing ≤ alpha →
        minimax g d s alpha beta maximizing ≤ alpha) ∧
      (beta ≤ minimaxUnpruned g d s maximizing →
        beta ≤ minimax g d s alpha beta maximizing) ∧
      (alpha < minimaxUnpruned g d s maximizing →
        minimaxUnpruned g d s maximizing < beta →
        minimax g d s alpha beta maximizing = minimaxUnpruned g d s maximizing) := by
  intro d
  induction d with
  | zero =>
    intro s alpha beta maximizing _
    exact ⟨id, id, fun _ _ => rfl⟩
  | succ d ih =>
    intro s alpha beta maximizing hab
    by_cases hterm : g.isTerminalState s
    · have e1 : minimax g (d + 1) s alpha beta maximizing = g.evalE s := by
        simp [minimax, hterm]
      have e2 : minimaxUnpruned g (d + 1) s maximizing = g.evalE s := by
        simp [minimaxUnpruned, hterm]
      rw [e1, e2]
      exact ⟨id, id, fun _ _ => rfl⟩
    · cases maximizing with
      | true =>
        simp only [minimax, minimaxUnpruned, hterm, if_false, if_true]
        exact abMaxLoop_spec g (fun s' al be => minimax g d s' al be false)
          (fun a => minimaxUnpruned g d (g.simulateAction a s) false) s
          (fun a al be h => ih (g.simulateAction a s) al be false h)
          (g.getActionsForState s (g.currentSearchPlayer s true))
          negInf alpha beta hab bot_le
      | false =>
        simp only [minimax, minimaxUnpruned, hterm, if_false]
        exact abMinLoop_spec g (fun s' al be => minimax g d s' al be true)
          (fun a => minimaxUnpruned g d (g.simulateAction a s) true) s
          (fun a al be h => ih (g.simulateAction a s) al be true h)
          (g.getActionsForState s (g.currentSearchPlayer s false))
          posInf alpha beta hab le_top

/-- With the full `(-∞, +∞)` window the pruned and unpruned searches
return the same value at every depth. -/
theorem minimax_fullWindow {State Action : Type} (g : MinimaxGame State Action)
    (d : Nat) (s : State) (maximizing : Bool) :
    minimax g d s negInf posInf maximizing = minimaxUnpruned g d s maximizing := by
  have hab : (negInf : EVal) < posInf := bot_lt_top
  have h := minimax_spec g d s negInf posInf maximizing hab
  rcases le_or_lt (minimaxUnpruned g d s maximizing) negInf with hle | hlt
  · have h1 : minimax g d s negInf posInf maximizing = negInf :=
      le_antisymm (h.1 hle) bot_le
    have hle' : minimaxUnpruned g d s maximizing = negInf := le_antisymm hle bot_le
    rw [h1, hle']
  · rcases le_or_lt posInf (minimaxUnpruned g d s maximizing) with hge | hlt2
    · have h1 : minimax g d s negInf posInf maximizing = posInf :=
        le_antisymm le_top (h.2.1 hge)
      have hge' : minimaxUnpruned g d s maximizing = posInf := le_antisymm le_top hge
      rw [h1, hge']
    · exact h.2.2 hlt hlt2

theorem rootValues_eq_unpruned {State Action : Type} (g : MinimaxGame State Action)
    (d : Nat) (s : State) (actions : List Action) (draws : Nat → ℚ)
    (noiseFactor : ℚ) :
    rootValues g d s actions draws noiseFactor =
      rootValuesUnpruned g d s actions draws noiseFactor := by
  unfold rootValues rootValuesUnpruned
  congr 1
  funext p
  rw [minimax_fullWindow]

/-- C1: for every game state, every list of root actions, any
deterministic `evaluateState`, and zero noise (every `Math.random()` draw
equal to `0.5`, so `addNoise` adds `0`), `MinimaxAI.chooseAction` with
alpha-beta pruning selects the identical root action that the unpruned
minimax search of the same `maxDepth` selects: each root action is
searched with a full `(-∞, +∞)` window, so pruning never changes the
chosen action. -/
theorem minimax_ab_same_root_choice {State Action : Type}
    (g : MinimaxGame State Action) (maxDepth : Nat) (s : State)
    (availableActions : List Action) (noiseFactor : ℚ) :
    chooseActionMinimax g maxDepth s availableActions (fun _ => 1/2) noiseFactor =
      chooseActionUnpruned g maxDepth s availableActions (fun _ => 1/2) noiseFactor := by
  unfold chooseActionMinimax chooseActionUnpruned
  rw [rootValues_eq_unpruned]

/-- C8: at a non-root, non-terminal ply with `depth > 0` whose
`getActionsForState` list is empty, `minimax` returns the loop's initial
sentinel unchanged: `-Infinity` at a maximizing ply and `+Infinity` at a
minimizing ply — not an evaluation of the state (the evaluation is always
finite, hence distinct from both sentinels). -/
theorem minimax_empty_actions_returns_sentinel {State Action : Type}
    (g : MinimaxGame State Action) (d : Nat) (s : State) (alpha beta : EVal)
    (hterm : g.isTerminalState s = false)
    (hempty : ∀ pid, g.getActionsForState s pid = []) :
    minimax g (d + 1) s alpha beta true = negInf ∧
    minimax g (d + 1) s alpha beta false = posInf ∧
    g.evalE s ≠ negInf ∧ g.evalE s ≠ posInf := by
  refine ⟨?_, ?_, finE_ne_bot _, finE_ne_top _⟩
  · simp [minimax, hterm, hempty, abMaxLoop]
  · simp [minimax, hterm, hempty, abMinLoop]

/-- A state with no legal actions for anybody and a non-terminal flag:
exercises the empty-actions edge case. -/
def gEmpty : MinimaxGame Unit Unit :=
  { playerId := "p1"
    players := fun _ => ["p1", "p2"]
    simulateAction := fun _ s => s
    getActionsForState := fun _ _ => []
    isTerminalState := fun _ => false
    evaluateState := fun _ => 0 }

theorem minimax_empty_actions_witness :
    gEmpty.isTerminalState () = false ∧
    minimax gEmpty 1 () (finE 3) (finE 7) true = negInf ∧
    minimax gEmpty 1 () (finE 3) (finE 7) false = posInf :=
  ⟨rfl,
   (minimax_empty_actions_returns_sentinel gEmpty 0 () (finE 3) (finE 7) rfl
      (fun _ => rfl)).1,
   (minimax_empty_actions_returns_sentinel gEmpty 0 () (finE 3) (finE 7) rfl
      (fun _ => rfl)).2.1⟩

/-! ## Difficulty tables (src/ai/BaseAI.ts, src/ai/MinimaxAI.ts) -/

/-- `AILevel` difficulty enum. -/
inductive AILevel : Type where
  | easy
  | medium
  | hard
  | expert
deriving DecidableEq

/-- `MinimaxAI.getDepthByDifficulty`. -/
def getDepthByDifficulty : AILevel → Int
  | .easy => 1
  | .medium => 2
  | .hard => 3
  | .expert => 4

/-- `BaseAI.getDifficultyNoiseFactor`. -/
def getDifficultyNoiseFactor : AILevel → ℚ
  | .easy => 2
  | .medium => 1
  | .hard => 1/2
  | .expert => 1/5

/-- `MCTSAI.getIterationsByDifficulty`. -/
def getIterationsByDifficulty : AILevel → Nat
  | .easy => 100
  | .medium => 500
  | .hard => 1000
  | .expert => 2000

/-- `this.maxDepth = config.maxDepth || this.getDepthByDifficulty(config.difficulty)`
from the `MinimaxAI` constructor.  JS `||` takes the right operand when
the left operand is absent (`undefined`) or `0`, both falsy. -/
def resolveMaxDepth (configMaxDepth : Option Int) (difficulty : AILevel) : Int :=
  match configMaxDepth with
  | none => getDepthByDifficulty difficulty
  | some d => if d = 0 then getDepthByDifficulty difficulty else d

/-- C10: constructing a `MinimaxAI` with an explicit `config.maxDepth` of
`0` does not use that value: `0` is falsy, so `maxDepth` falls back to
the difficulty default (EASY 1, MEDIUM 2, HARD 3, EXPERT 4). -/
theorem maxDepth_zero_falls_back_to_difficulty :
    (∀ lvl, resolveMaxDepth (some 0) lvl = getDepthByDifficulty lvl) ∧
    resolveMaxDepth (some 0) AILevel.easy = 1 ∧
    resolveMaxDepth (some 0) AILevel.medium = 2 ∧
    resolveMaxDepth (some 0) AILevel.hard = 3 ∧
    resolveMaxDepth (some 0) AILevel.expert = 4 := by
  refine ⟨?_, rfl, rfl, rfl, rfl⟩
  intro lvl
  cases lvl <;> rfl

/-! ## Greedy AI (src/ai/GreedyAI.ts) -/

/-- `GreedyAI.chooseAction`: evaluate every action once via the
game-specific `evaluateAction`, add noise with `maxNoise = 20`
(`value + (draw - 0.5) * 20 * noiseFactor`), sort descending by value and
pick the first. -/
def chooseActionGreedy {State Action : Type}
    (evaluateAction : Action → State → ℚ) (s : State)
    (availableActions : List Action) (draws : Nat → ℚ) (noiseFactor : ℚ) :
    Option Action :=
  if availableActions.isEmpty then none
  else selectBest (availableActions.enum.map (fun p =>
    (p.2, finE (evaluateAction p.2 s + (draws p.1 - 1/2) * 20 * noiseFactor))))

/-- C6 (amended): with maxDepth 1, a deterministic evaluator and zero
noise (every draw equal to `0.5`), the minimax AI chooses the same action
as a greedy AI whose `evaluateAction(a, s)` equals
`evaluateState(simulateAction(a, s))`.  Zero noise is required: with
merely identical nonzero draws the two AIs scale the noise differently
(`maxNoise` 10 for minimax versus 20 for greedy) and can pick different
actions. -/
theorem minimax_depth1_eq_greedy_zero_noise {State Action : Type}
    (g : MinimaxGame State Action) (evaluateAction : Action → State → ℚ)
    (s : State) (availableActions : List Action) (noiseFactor : ℚ)
    (heq : ∀ a, evaluateAction a s = g.evaluateState (g.simulateAction a s)) :
    chooseActionMinimax g 1 s availableActions (fun _ => 1/2) noiseFactor =
      chooseActionGreedy evaluateAction s availableActions (fun _ => 1/2) noiseFactor := by
  unfold chooseActionMinimax chooseActionGreedy
  by_cases hemp : availableActions.isEmpty
  · rw [if_pos hemp, if_pos hemp]
  · rw [if_neg hemp, if_neg hemp]
    congr 1
    unfold rootValues
    congr 1
    funext p
    show (p.2, addNoiseE (minimax g 0 (g.simulateAction p.2 s) negInf posInf false)
        (((1 : ℚ)/2 - 1/2) * 10 * noiseFactor)) =
      (p.2, finE (evaluateAction p.2 s + ((1 : ℚ)/2 - 1/2) * 20 * noiseFactor))
    have e10 : ((1 : ℚ)/2 - 1/2) * 10 * noiseFactor = 0 := by ring
    have e20 : ((1 : ℚ)/2 - 1/2) * 20 * noiseFactor = 0 := by ring
    rw [e10, e20, addNoiseE_zero, heq p.2, add_zero]
    rfl

/-- A two-action game where the immediate evaluations are 0 and 5:
`simulateAction` just records the chosen action in the state. -/
def gSmall : MinimaxGame Nat Nat :=
  { playerId := "p1"
    players := fun _ => ["p1", "p2"]
    simulateAction := fun a _ => a
    getActionsForState := fun _ _ => []
    isTerminalState := fun _ => true
    evaluateState := fun s => if s = 1 then 5 else 0 }

/-- The greedy per-action evaluation equivalent to `gSmall`: exactly
`evaluateState(simulateAction(a, s))`. -/
def evalActionSmall (a : Nat) (s : Nat) : ℚ :=
  gSmall.evaluateState (gSmall.simulateAction a s)

/-- Identical random draws for both AIs: `0.9` for the first action,
`0.5` for the second. -/
def drawsC6 : Nat → ℚ :=
  fun i => if i = 0 then 9/10 else 1/2

/-- C6 counterexample: with the SAME random draws (0.9 then 0.5) at
MEDIUM noise factor 1, minimax at maxDepth 1 picks action 1
(values 0 + 0.4·10 = 4 versus 5) while the equivalent greedy AI picks
action 0 (values 0 + 0.4·20 = 8 versus 5): identical draws do not make
the two agree, because minimax uses `maxNoise = 10` and greedy
`maxNoise = 20`. -/
theorem addNoiseE_finE (q n : ℚ) : addNoiseE (finE q) n = finE (q + n) := rfl

theorem finE_lt_finE {p q : ℚ} : finE p < finE q ↔ p < q := by
  simp [finE]

theorem minimax_greedy_same_draws_counterexample :
    chooseActionMinimax gSmall 1 0 [0, 1] drawsC6
        (getDifficultyNoiseFactor AILevel.medium) = some 1 ∧
    chooseActionGreedy evalActionSmall 0 [0, 1] drawsC6
        (getDifficultyNoiseFactor AILevel.medium) = some 0 ∧
    (some 1 : Option Nat) ≠ some 0 := by
  refine ⟨?_, ?_, by decide⟩
  · have hlist : rootValues gSmall 0 0 [0, 1] drawsC6
        (getDifficultyNoiseFactor AILevel.medium) = [(0, finE 4), (1, finE 5)] := by
      unfold rootValues
      simp only [List.enum, List.enumFrom, List.map]
      rw [show minimax gSmall 0 (gSmall.simulateAction 0 0) negInf posInf false =
            finE 0 from rfl,
          show minimax gSmall 0 (gSmall.simulateAction 1 0) negInf posInf false =
            finE 5 from rfl,
          addNoiseE_finE, addNoiseE_finE]
      norm_num [drawsC6, getDifficultyNoiseFactor]
    unfold chooseActionMinimax
    rw [if_neg (by decide), show (1 : Nat) - 1 = 0 from rfl, hlist]
    norm_num [selectBest, selectScan, finE_lt_finE]
  · have hlist : [(0 : Nat), 1].enum.map (fun p =>
        (p.2, finE (evalActionSmall p.2 0 +
          (drawsC6 p.1 - 1/2) * 20 * getDifficultyNoiseFactor AILevel.medium))) =
        [(0, finE 8), (1, finE 5)] := by
      simp only [List.enum, List.enumFrom, List.map]
      norm_num [drawsC6, getDifficultyNoiseFactor, evalActionSmall, gSmall]
    unfold chooseActionGreedy
    rw [if_neg (by decide), hlist]
    norm_num [selectBest, selectScan, finE_lt_finE]

theorem minimax_depth1_eq_greedy_witness :
    chooseActionMinimax gSmall 1 0 [0, 1] (fun _ => 1/2) 1 =
      chooseActionGreedy evalActionSmall 0 [0, 1] (fun _ => 1/2) 1 :=
  minimax_depth1_eq_greedy_zero_noise gSmall evalActionSmall 0 [0, 1] 1
    (fun _ => rfl)

/-! ## MCTS AI (src/ai/MCTSAI.ts)

`Math.sqrt` and `Math.log` compute on doubles; every double value is a
rational, so the two are modelled as unspecified functions `ℚ → ℚ`
(claims about MCTS do not depend on their values).  The parent
back-references of `MCTSNode` are modelled by the tree structure itself:
backpropagation returns the updated subtree instead of mutating through
`parent` pointers. -/

structure MCTSGame (State Action : Type) where
  currentPlayerId : State → String
  getActionsForState : State → String → List Action
  simulateAction : Action → State → State
  isTerminalState : State → Bool
  simulatePlayout : State → ℚ
  sqrtFn : ℚ → ℚ
  logFn : ℚ → ℚ

/-- `MCTSNode`: state snapshot, originating action (`none` for the
root), owned children, visit count and accumulated value. -/
inductive MTree (State Action : Type) : Type where
  | mk (state : State) (action : Option Action)
      (children : List (MTree State Action)) (visits : Nat) (totalValue : ℚ)

def MTree.state {State Action : Type} : MTree State Action → State
  | .mk s _ _ _ _ => s

def MTree.action {State Action : Type} : MTree State Action → Option Action
  | .mk _ a _ _ _ => a

def MTree.children {State Action : Type} :
    MTree State Action → List (MTree State Action)
  | .mk _ _ cs _ _ => cs

def MTree.visits {State Action : Type} : MTree State Action → Nat
  | .mk _ _ _ v _ => v

def MTree.totalValue {State Action : Type} : MTree State Action → ℚ
  | .mk _ _ _ _ t => t

/-- `MCTSNode.getUCB1Value(child, c)`: `+Infinity` for an unvisited
child, else `totalValue/visits + 1.414 * sqrt(log(parentVisits)/visits)`. -/
def ucb1 {State Action : Type} (g : MCTSGame State Action)
    (parentVisits : Nat) (c : MTree State Action) : EVal :=
  if c.visits = 0 then posInf
  else finE ((c.totalValue / (c.visits : ℚ)) +
    (1414/1000) * g.sqrtFn (g.logFn (parentVisits : ℚ) / (c.visits : ℚ)))

/-- The scanning loop of `MCTSNode.getBestChild`: strict `>` comparison,
carrying the index, node and UCB1 value of the best child so far. -/
def bestScanIdx {State Action : Type} (g : MCTSGame State Action)
    (parentVisits : Nat) :
    List (MTree State Action) → Nat →
      Nat × MTree State Action × EVal → Nat × MTree State Action × EVal
  | [], _, best => best
  | c :: rest, i, best =>
    bestScanIdx g parentVisits rest (i + 1)
      (if best.2.2 < ucb1 g parentVisits c then (i, c, ucb1 g parentVisits c)
       else best)

/-- `MCTSNode.getBestChild`: `null` when there are no children, else the
first child attaining the maximal UCB1 value (the scan starts from
`children[0]` and replaces only on strictly greater value). -/
def getBestChild {State Action : Type} (g : MCTSGame State Action)
    (parentVisits : Nat) (children : List (MTree State Action)) :
    Option (Nat × MTree State Action × EVal) :=
  match children with
  | [] => none
  | c :: _ =>
    some (bestScanIdx g parentVisits children 0 (0, c, ucb1 g parentVisits c))

theorem bestScanIdx_mem {State Action : Type} (g : MCTSGame State Action)
    (parentVisits : Nat) :
    ∀ (cs : List (MTree State Action)) (i : Nat)
      (best : Nat × MTree State Action × EVal),
      (bestScanIdx g parentVisits cs i best).2.1 = best.2.1 ∨
        (bestScanIdx g parentVisits cs i best).2.1 ∈ cs
  | [], _, best => Or.inl rfl
  | c :: rest, i, best => by
    simp only [bestScanIdx]
    by_cases hlt : best.2.2 < ucb1 g parentVisits c
    · rw [if_pos hlt]
      rcases bestScanIdx_mem g parentVisits rest (i + 1)
        (i, c, ucb1 g parentVisits c) with h | h
      · exact Or.inr (by rw [h]; exact List.mem_cons_self c rest)
      · exact Or.inr (List.mem_cons_of_mem c h)
    · rw [if_neg hlt]
      rcases bestScanIdx_mem g parentVisits rest (i + 1) best with h | h
      · exact Or.inl h
      · exact Or.inr (List.mem_cons_of_mem c h)

theorem bestScanIdx_snd {State Action : Type} (g : MCTSGame State Action)
    (pv : Nat) (cs : List (MTree State Action)) :
    ∀ (i : Nat) (best : Nat × MTree State Action × EVal),
      best.2.2 = ucb1 g pv best.2.1 →
      (bestScanIdx g pv cs i best).2.2 =
        ucb1 g pv (bestScanIdx g pv cs i best).2.1 := by
  induction cs with
  | nil => intro i best h; exact h
  | cons c rest ih =>
    intro i best h
    simp only [bestScanIdx]
    by_cases hlt : best.2.2 < ucb1 g pv c
    · rw [if_pos hlt]
      exact ih (i + 1) (i, c, ucb1 g pv c) rfl
    · rw [if_neg hlt]
      exact ih (i + 1) best h

theorem bestScanIdx_ge {State Action : Type} (g : MCTSGame State Action)
    (pv : Nat) (cs : List (MTree State Action)) :
    ∀ (i : Nat) (best : Nat × MTree State Action × EVal),
      best.2.2 ≤ (bestScanIdx g pv cs i best).2.2 ∧
      ∀ c ∈ cs, ucb1 g pv c ≤ (bestScanIdx g pv cs i best).2.2 := by
  induction cs with
  | nil =>
    intro i best
    exact ⟨le_refl _, fun c hc => absurd hc (List.not_mem_nil c)⟩
  | cons c rest ih =>
    intro i best
    simp only [bestScanIdx]
    by_cases hlt : best.2.2 < ucb1 g pv c
    · rw [if_pos hlt]
      have h := ih (i + 1) (i, c, ucb1 g pv c)
      refine ⟨le_trans (le_of_lt hlt) h.1, ?_⟩
      intro c' hc'
      rcases List.mem_cons.mp hc' with h' | h'
      · rw [h']; exact h.1
      · exact h.2 c' h'
    · rw [if_neg hlt]
      have h := ih (i + 1) best
      refine ⟨h.1, ?_⟩
      intro c' hc'
      rcases List.mem_cons.mp hc' with h' | h'
      · rw [h']; exact le_trans (not_lt.mp hlt) h.1
      · exact h.2 c' h'

theorem bestScanIdx_get? {State Action : Type} (g : MCTSGame State Action)
    (pv : Nat) (full : List (MTree State Action)) (cs : List (MTree State Action)) :
    ∀ (i : Nat) (best : Nat × MTree State Action × EVal),
      (∀ k, k < cs.length → full.get? (i + k) = cs.get? k) →
      full.get? best.1 = some best.2.1 →
      full.get? (bestScanIdx g pv cs i best).1 =
        some (bestScanIdx g pv cs i best).2.1 := by
  induction cs with
  | nil => intro i best _ hb; exact hb
  | cons c rest ih =>
    intro i best hk hb
    simp only [bestScanIdx]
    have hk' : ∀ k, k < rest.length → full.get? (i + 1 + k) = rest.get? k := by
      intro k hklen
      have h := hk (k + 1) (by simpa using Nat.succ_lt_succ hklen)
      have harith : i + (k + 1) = i + 1 + k := by omega
      rw [harith] at h
      simpa using h
    by_cases hlt : best.2.2 < ucb1 g pv c
    · rw [if_pos hlt]
      refine ih (i + 1) (i, c, ucb1 g pv c) hk' ?_
      have h := hk 0 (by simp)
      simpa using h
    · rw [if_neg hlt]
      exact ih (i + 1) best hk' hb

/-- The child selected by the `getBestChild` scan is one of the node's
children: used for termination of the selection descent. -/
theorem bestScanIdx_base_mem {State Action : Type} (g : MCTSGame State Action)
    (pv : Nat) (c0 : MTree State Action) (cs : List (MTree State Action)) :
    (bestScanIdx g pv (c0 :: cs) 0 (0, c0, ucb1 g pv c0)).2.1 ∈ c0 :: cs := by
  rcases bestScanIdx_mem g pv (c0 :: cs) 0 (0, c0, ucb1 g pv c0) with h | h
  · rw [h]; exact List.mem_cons_self c0 cs
  · exact h

/-- A member of the child list is structurally smaller than the node
built over that list (sizes spelled out the way `simp_wf` leaves them). -/
theorem sizeOf_mem_lt_parts {State Action : Type} (b c : MTree State Action)
    (tail : List (MTree State Action)) (hmem : b ∈ c :: tail) (A V T : Nat) :
    sizeOf b < 1 + A + (1 + sizeOf c + sizeOf tail) + V + T := by
  have h1 := List.sizeOf_lt_of_mem hmem
  have h2 : sizeOf (c :: tail) = 1 + sizeOf c + sizeOf tail := by simp
  omega

/-- One MCTS iteration (the body of the loop in `MCTSAI.chooseAction`):
selection descends through `getBestChild` while the node has children and
is non-terminal; expansion creates all children of the reached leaf in one
shot; a uniformly random fresh child (modelled as index `pick % length`,
matching `Math.floor(Math.random() * length)`) is simulated via
`simulatePlayout`; backpropagation adds the value and one visit to every
node on the path, modelled by rebuilding the spine.  Returns the updated
tree and the simulated value. -/
def mctsIterate {State Action : Type} (g : MCTSGame State Action) (pick : Nat) :
    MTree State Action → MTree State Action × ℚ
  | .mk s act children visits total =>
    if g.isTerminalState s then
      (.mk s act children (visits + 1) (total + g.simulatePlayout s),
        g.simulatePlayout s)
    else
      match children with
      | [] =>
        match (g.getActionsForState s (g.currentPlayerId s)).map
            (fun a => MTree.mk (g.simulateAction a s) (some a)
              ([] : List (MTree State Action)) 0 0) with
        | [] =>
          (.mk s act [] (visits + 1) (total + g.simulatePlayout s),
            g.simulatePlayout s)
        | c0 :: cs =>
          let j := pick % (c0 :: cs).length
          let c := (c0 :: cs).getD j c0
          let v := g.simulatePlayout c.state
          (.mk s act ((c0 :: cs).set j
              (.mk c.state c.action c.children (c.visits + 1) (c.totalValue + v)))
            (visits + 1) (total + v), v)
      | c0 :: cs =>
        let best := bestScanIdx g visits (c0 :: cs) 0 (0, c0, ucb1 g visits c0)
        let r := mctsIterate g pick best.2.1
        (.mk s act ((c0 :: cs).set best.1 r.1) (visits + 1) (total + r.2), r.2)
termination_by t => sizeOf t
decreasing_by
  simp_wf
  apply sizeOf_mem_lt_parts
  apply bestScanIdx_base_mem

/-- A fresh root node wrapping the current state (`new MCTSNode(state)`). -/
def rootNode {State Action : Type} (s : State) : MTree State Action :=
  .mk s none [] 0 0

/-- The `for (let i = 0; i < this.iterations; i++)` loop: run `n` MCTS
iterations, drawing the expansion index for iteration `n` from `pick`. -/
def mctsRun {State Action : Type} (g : MCTSGame State Action)
    (pick : Nat → Nat) : Nat → MTree State Action → MTree State Action
  | 0, t => t
  | n + 1, t => mctsRun g pick n (mctsIterate g (pick n) t).1

/-- The final-choice scan: strict `>` on visit counts, first wins ties. -/
def mostVisitedScan {State Action : Type} :
    MTree State Action → List (MTree State Action) → MTree State Action
  | best, [] => best
  | best, c :: cs => mostVisitedScan (if best.visits < c.visits then c else best) cs

/-- `root.children[0]` then scan for the child with the most visits;
`none` when the root has no children. -/
def mostVisited {State Action : Type} :
    List (MTree State Action) → Option (MTree State Action)
  | [] => none
  | c :: cs => some (mostVisitedScan c cs)

/-- `MCTSAI.chooseAction`: early `null` on an empty `availableActions`
list, else run the difficulty-configured number of iterations from a
fresh root and return the action of the most-visited root child.  The
search tree is returned alongside so that properties of the finished
tree can be stated; the engine discards it. -/
def chooseActionMCTS {State Action : Type} (g : MCTSGame State Action)
    (pick : Nat → Nat) (difficulty : AILevel) (s : State)
    (availableActions : List Action) :
    Option Action × MTree State Action :=
  if availableActions.isEmpty then (none, rootNode s)
  else
    let tree := mctsRun g pick (getIterationsByDifficulty difficulty) (rootNode s)
    (match mostVisited tree.children with
     | none => none
     | some c => c.action, tree)

/-- Sum of the visit counts of a node's children. -/
def childVisitSum {State Action : Type} (t : MTree State Action) : Nat :=
  (t.children.map MTree.visits).sum

theorem mctsIterate_terminal {State Action : Type} (g : MCTSGame State Action)
    (pick : Nat) (s : State) (act : Option Action)
    (children : List (MTree State Action)) (visits : Nat) (total : ℚ)
    (hterm : g.isTerminalState s = true) :
    mctsIterate g pick (.mk s act children visits total) =
      (.mk s act children (visits + 1) (total + g.simulatePlayout s),
        g.simulatePlayout s) := by
  rw [mctsIterate.eq_def]
  dsimp only
  rw [if_pos hterm]

theorem mctsIterate_leaf {State Action : Type} (g : MCTSGame State Action)
    (pick : Nat) (s : State) (act : Option Action) (visits : Nat) (total : ℚ)
    (hterm : g.isTerminalState s = false) :
    mctsIterate g pick (.mk s act [] visits total) =
      (match (g.getActionsForState s (g.currentPlayerId s)).map
          (fun a => MTree.mk (g.simulateAction a s) (some a)
            ([] : List (MTree State Action)) 0 0) with
       | [] => (.mk s act [] (visits + 1) (total + g.simulatePlayout s),
           g.simulatePlayout s)
       | c0 :: cs =>
         let j := pick % (c0 :: cs).length
         let c := (c0 :: cs).getD j c0
         let v := g.simulatePlayout c.state
         (.mk s act ((c0 :: cs).set j
             (.mk c.state c.action c.children (c.visits + 1) (c.totalValue + v)))
           (visits + 1) (total + v), v)) := by
  rw [mctsIterate.eq_def]
  dsimp only
  rw [if_neg (by simp [hterm])]

theorem mctsIterate_select {State Action : Type} (g : MCTSGame State Action)
    (pick : Nat) (s : State) (act : Option Action) (c0 : MTree State Action)
    (cs : List (MTree State Action)) (visits : Nat) (total : ℚ)
    (hterm : g.isTerminalState s = false) :
    mctsIterate g pick (.mk s act (c0 :: cs) visits total) =
      (let best := bestScanIdx g visits (c0 :: cs) 0 (0, c0, ucb1 g visits c0)
       let r := mctsIterate g pick best.2.1
       (.mk s act ((c0 :: cs).set best.1 r.1) (visits + 1) (total + r.2),
         r.2)) := by
  rw [mctsIterate.eq_def]
  dsimp only
  rw [if_neg (by simp [hterm])]

theorem mctsIterate_visits {State Action : Type} (g : MCTSGame State Action)
    (pick : Nat) (t : MTree State Action) :
    (mctsIterate g pick t).1.visits = t.visits + 1 := by
  cases t with
  | mk s act children visits total =>
    by_cases hterm : g.isTerminalState s = true
    · rw [mctsIterate_terminal g pick s act children visits total hterm]
      rfl
    · have hterm' : g.isTerminalState s = false := by simpa using hterm
      cases children with
      | nil =>
        rw [mctsIterate_leaf g pick s act visits total hterm']
        rcases hmap : (g.getActionsForState s (g.currentPlayerId s)).map
            (fun a => MTree.mk (g.simulateAction a s) (some a)
              ([] : List (MTree State Action)) 0 0) with _ | ⟨c0, cs⟩
        · rfl
        · rfl
      | cons c0 cs =>
        rw [mctsIterate_select g pick s act c0 cs visits total hterm']
        rfl

theorem mctsIterate_state {State Action : Type} (g : MCTSGame State Action)
    (pick : Nat) (t : MTree State Action) :
    (mctsIterate g pick t).1.state = t.state := by
  cases t with
  | mk s act children visits total =>
    by_cases hterm : g.isTerminalState s = true
    · rw [mctsIterate_terminal g pick s act children visits total hterm]
      rfl
    · have hterm' : g.isTerminalState s = false := by simpa using hterm
      cases children with
      | nil =>
        rw [mctsIterate_leaf g pick s act visits total hterm']
        rcases hmap : (g.getActionsForState s (g.currentPlayerId s)).map
            (fun a => MTree.mk (g.simulateAction a s) (some a)
              ([] : List (MTree State Action)) 0 0) with _ | ⟨c0, cs⟩
        · rfl
        · rfl
      | cons c0 cs =>
        rw [mctsIterate_select g pick s act c0 cs visits total hterm']
        rfl

theorem visitSum_set {State Action : Type} :
    ∀ (l : List (MTree State Action)) (j : Nat) (c c' : MTree State Action),
      l.get? j = some c →
      ((l.set j c').map MTree.visits).sum + c.visits =
        (l.map MTree.visits).sum + c'.visits := by
  intro l
  induction l with
  | nil => intro j c c' h; simp at h
  | cons x rest ih =>
    intro j c c' h
    cases j with
    | zero =>
      simp only [List.get?] at h
      injection h with h
      subst h
      simp only [List.set, List.map, List.sum_cons]
      omega
    | succ j =>
      simp only [List.get?] at h
      have hrec := ih j c c' h
      simp only [List.set, List.map, List.sum_cons]
      omega

theorem bestScanIdx_base_get? {State Action : Type} (g : MCTSGame State Action)
    (pv : Nat) (c0 : MTree State Action) (cs : List (MTree State Action)) :
    (c0 :: cs).get? (bestScanIdx g pv (c0 :: cs) 0 (0, c0, ucb1 g pv c0)).1 =
      some (bestScanIdx g pv (c0 :: cs) 0 (0, c0, ucb1 g pv c0)).2.1 :=
  bestScanIdx_get? g pv (c0 :: cs) (c0 :: cs) 0 (0, c0, ucb1 g pv c0)
    (fun k _ => by simp) rfl

theorem mctsIterate_select_childSum {State Action : Type}
    (g : MCTSGame State Action) (pick : Nat) (s : State) (act : Option Action)
    (c0 : MTree State Action) (cs : List (MTree State Action)) (visits : Nat)
    (total : ℚ) (hterm : g.isTerminalState s = false) :
    childVisitSum (mctsIterate g pick (.mk s act (c0 :: cs) visits total)).1 =
      childVisitSum (.mk s act (c0 :: cs) visits total) + 1 := by
  rw [mctsIterate_select g pick s act c0 cs visits total hterm]
  have hget : (c0 :: cs).get?
      (bestScanIdx g visits (c0 :: cs) 0 (0, c0, ucb1 g visits c0)).1 =
      some (bestScanIdx g visits (c0 :: cs) 0 (0, c0, ucb1 g visits c0)).2.1 :=
    bestScanIdx_base_get? g visits c0 cs
  have hv := mctsIterate_visits g pick
    (bestScanIdx g visits (c0 :: cs) 0 (0, c0, ucb1 g visits c0)).2.1
  have hsum := visitSum_set (c0 :: cs)
    (bestScanIdx g visits (c0 :: cs) 0 (0, c0, ucb1 g visits c0)).1
    (bestScanIdx g visits (c0 :: cs) 0 (0, c0, ucb1 g visits c0)).2.1
    (mctsIterate g pick
      (bestScanIdx g visits (c0 :: cs) 0 (0, c0, ucb1 g visits c0)).2.1).1
    hget
  simp only [childVisitSum, MTree.children]
  omega

theorem mctsIterate_select_children_ne {State Action : Type}
    (g : MCTSGame State Action) (pick : Nat) (s : State) (act : Option Action)
    (c0 : MTree State Action) (cs : List (MTree State Action)) (visits : Nat)
    (total : ℚ) (hterm : g.isTerminalState s = false) :
    (mctsIterate g pick (.mk s act (c0 :: cs) visits total)).1.children ≠ [] := by
  rw [mctsIterate_select g pick s act c0 cs visits total hterm]
  simp only [MTree.children]
  intro h
  have hlen := congrArg List.length h
  simp at hlen

theorem mctsIterate_leaf_childSum {State Action : Type}
    (g : MCTSGame State Action) (pick : Nat) (s : State) (act : Option Action)
    (visits : Nat) (total : ℚ) (hterm : g.isTerminalState s = false)
    (hacts : g.getActionsForState s (g.currentPlayerId s) ≠ []) :
    childVisitSum (mctsIterate g pick (.mk s act [] visits total)).1 = 1 := by
  rw [mctsIterate_leaf g pick s act visits total hterm]
  rcases hmap : (g.getActionsForState s (g.currentPlayerId s)).map
      (fun a => MTree.mk (g.simulateAction a s) (some a)
        ([] : List (MTree State Action)) 0 0) with _ | ⟨c0, cs⟩
  · exact absurd (List.map_eq_nil_iff.mp hmap) hacts
  · simp only [childVisitSum, MTree.children]
    have hzero : ∀ x ∈ c0 :: cs, x.visits = 0 := by
      intro x hx
      rw [← hmap] at hx
      obtain ⟨a, _, rfl⟩ := List.mem_map.mp hx
      rfl
    have hj : pick % (c0 :: cs).length < (c0 :: cs).length :=
      Nat.mod_lt _ (by simp)
    have hget : (c0 :: cs).get? (pick % (c0 :: cs).length) =
        some ((c0 :: cs).getD (pick % (c0 :: cs).length) c0) := by
      rw [List.getD_eq_get? , List.get?_eq_get hj]
      rfl
    have hmem : (c0 :: cs).getD (pick % (c0 :: cs).length) c0 ∈ c0 :: cs := by
      rw [List.getD_eq_get?, List.get?_eq_get hj]
      exact List.get_mem _ _ _
    have hsum := visitSum_set (c0 :: cs) (pick % (c0 :: cs).length)
      ((c0 :: cs).getD (pick % (c0 :: cs).length) c0)
      (.mk ((c0 :: cs).getD (pick % (c0 :: cs).length) c0).state
        ((c0 :: cs).getD (pick % (c0 :: cs).length) c0).action
        ((c0 :: cs).getD (pick % (c0 :: cs).length) c0).children
        (((c0 :: cs).getD (pick % (c0 :: cs).length) c0).visits + 1)
        (((c0 :: cs).getD (pick % (c0 :: cs).length) c0).totalValue +
          g.simulatePlayout ((c0 :: cs).getD (pick % (c0 :: cs).length) c0).state))
      hget
    have hall : ((c0 :: cs).map MTree.visits).sum = 0 := by
      apply List.sum_eq_zero
      intro x hx
      obtain ⟨y, hy, rfl⟩ := List.mem_map.mp hx
      exact hzero y hy
    have hcv : ((c0 :: cs).getD (pick % (c0 :: cs).length) c0).visits = 0 :=
      hzero _ hmem
    rw [show MTree.visits (MTree.mk
        ((c0 :: cs).getD (pick % (c0 :: cs).length) c0).state
        ((c0 :: cs).getD (pick % (c0 :: cs).length) c0).action
        ((c0 :: cs).getD (pick % (c0 :: cs).length) c0).children
        (((c0 :: cs).getD (pick % (c0 :: cs).length) c0).visits + 1)
        (((c0 :: cs).getD (pick % (c0 :: cs).length) c0).totalValue +
          g.simulatePlayout ((c0 :: cs).getD (pick % (c0 :: cs).length) c0).state)) =
      ((c0 :: cs).getD (pick % (c0 :: cs).length) c0).visits + 1 from rfl] at hsum
    show (List.map MTree.visits
        ((c0 :: cs).set (pick % (c0 :: cs).length)
          (MTree.mk ((c0 :: cs).getD (pick % (c0 :: cs).length) c0).state
            ((c0 :: cs).getD (pick % (c0 :: cs).length) c0).action
            ((c0 :: cs).getD (pick % (c0 :: cs).length) c0).children
            (((c0 :: cs).getD (pick % (c0 :: cs).length) c0).visits + 1)
            (((c0 :: cs).getD (pick % (c0 :: cs).length) c0).totalValue +
              g.simulatePlayout
                ((c0 :: cs).getD (pick % (c0 :: cs).length) c0).state)))).sum = 1
    omega

theorem mctsIterate_leaf_children_ne {State Action : Type}
    (g : MCTSGame State Action) (pick : Nat) (s : State) (act : Option Action)
    (visits : Nat) (total : ℚ) (hterm : g.isTerminalState s = false)
    (hacts : g.getActionsForState s (g.currentPlayerId s) ≠ []) :
    (mctsIterate g pick (.mk s act [] visits total)).1.children ≠ [] := by
  rw [mctsIterate_leaf g pick s act visits total hterm]
  rcases hmap : (g.getActionsForState s (g.currentPlayerId s)).map
      (fun a => MTree.mk (g.simulateAction a s) (some a)
        ([] : List (MTree State Action)) 0 0) with _ | ⟨c0, cs⟩
  · exact absurd (List.map_eq_nil_iff.mp hmap) hacts
  · simp only [MTree.children]
    intro h
    have hlen := congrArg List.length h
    simp at hlen

theorem mctsRun_childSum {State Action : Type} (g : MCTSGame State Action)
    (pick : Nat → Nat) :
    ∀ (n : Nat) (t : MTree State Action),
      g.isTerminalState t.state = false → t.children ≠ [] →
      childVisitSum (mctsRun g pick n t) = childVisitSum t + n := by
  intro n
  induction n with
  | zero => intro t _ _; rfl
  | succ n ih =>
    intro t hterm hne
    cases t with
    | mk s act children visits total =>
      cases children with
      | nil => exact absurd rfl hne
      | cons c0 cs =>
        have hterm' : g.isTerminalState s = false := hterm
        have h1 := mctsIterate_select_childSum g (pick n) s act c0 cs visits total hterm'
        have hstate := mctsIterate_state g (pick n) (.mk s act (c0 :: cs) visits total)
        have hne' := mctsIterate_select_children_ne g (pick n) s act c0 cs visits total hterm'
        have h2 := ih (mctsIterate g (pick n) (.mk s act (c0 :: cs) visits total)).1
          (by rw [hstate]; exact hterm') hne'
        have hrun : mctsRun g pick (n + 1) (.mk s act (c0 :: cs) visits total) =
            mctsRun g pick n
              (mctsIterate g (pick n) (.mk s act (c0 :: cs) visits total)).1 := rfl
        rw [hrun, h2, h1]
        omega

theorem mctsRun_root_childSum {State Action : Type} (g : MCTSGame State Action)
    (pick : Nat → Nat) (s : State) (n : Nat)
    (hterm : g.isTerminalState s = false)
    (hacts : g.getActionsForState s (g.currentPlayerId s) ≠ []) :
    childVisitSum (mctsRun g pick n (rootNode s : MTree State Action)) = n := by
  cases n with
  | zero => rfl
  | succ n =>
    have hrun : mctsRun g pick (n + 1) (rootNode s : MTree State Action) =
        mctsRun g pick n
          (mctsIterate g (pick n) (.mk s none [] 0 0 : MTree State Action)).1 := rfl
    have h1 := mctsIterate_leaf_childSum g (pick n) s none 0 0 hterm hacts
    have hstate := mctsIterate_state g (pick n) (.mk s none [] 0 0 : MTree State Action)
    have hne := mctsIterate_leaf_children_ne g (pick n) s none 0 0 hterm hacts
    have h2 := mctsRun_childSum g pick n
      (mctsIterate g (pick n) (.mk s none [] 0 0 : MTree State Action)).1
      (by rw [hstate]; exact hterm) hne
    rw [hrun, h2, h1]
    omega

/-- C4 (amended): for every MCTS `chooseAction` call with a non-empty
`availableActions` list whose root state is additionally non-terminal and
has at least one legal action according to `getActionsForState` (the
search expands with its own action generator, not with the
`availableActions` argument), after the configured number of iterations N
(EASY 100, MEDIUM 500, HARD 1000, EXPERT 2000) the sum of the visit
counts of the root node's children equals N. -/
theorem mcts_root_children_visit_sum {State Action : Type}
    (g : MCTSGame State Action) (pick : Nat → Nat) (difficulty : AILevel)
    (s : State) (availableActions : List Action)
    (h1 : availableActions ≠ [])
    (h2 : g.isTerminalState s = false)
    (h3 : g.getActionsForState s (g.currentPlayerId s) ≠ []) :
    childVisitSum (chooseActionMCTS g pick difficulty s availableActions).2 =
      getIterationsByDifficulty difficulty ∧
    getIterationsByDifficulty AILevel.easy = 100 ∧
    getIterationsByDifficulty AILevel.medium = 500 ∧
    getIterationsByDifficulty AILevel.hard = 1000 ∧
    getIterationsByDifficulty AILevel.expert = 2000 := by
  refine ⟨?_, rfl, rfl, rfl, rfl⟩
  unfold chooseActionMCTS
  rw [if_neg (by simpa [List.isEmpty_iff] using h1)]
  exact mctsRun_root_childSum g pick s (getIterationsByDifficulty difficulty) h2 h3

/-- MCTS game whose `getActionsForState` never returns any action. -/
def gMctsNone : MCTSGame Nat Nat :=
  { currentPlayerId := fun _ => "p1"
    getActionsForState := fun _ _ => []
    simulateAction := fun a _ => a
    isTerminalState := fun _ => false
    simulatePlayout := fun _ => 0
    sqrtFn := id
    logFn := id }

/-- An iteration on a root that never expands just bumps the root's own
visit count. -/
theorem gMctsNone_run : ∀ (n k : Nat),
    mctsRun gMctsNone (fun _ => 0) n
        (MTree.mk 0 none ([] : List (MTree Nat Nat)) k 0) =
      .mk 0 none [] (k + n) 0 := by
  intro n
  induction n with
  | zero => intro k; rfl
  | succ n ih =>
    intro k
    have hit : (mctsIterate gMctsNone 0
        (MTree.mk 0 none ([] : List (MTree Nat Nat)) k 0)).1 =
        .mk 0 none [] (k + 1) 0 := by
      rw [mctsIterate_leaf gMctsNone 0 0 none k 0 rfl]
      show MTree.mk 0 none ([] : List (MTree Nat Nat)) (k + 1)
          ((0 : ℚ) + gMctsNone.simulatePlayout 0) = _
      norm_num [gMctsNone]
    have hrun : mctsRun gMctsNone (fun _ => 0) (n + 1)
        (MTree.mk 0 none ([] : List (MTree Nat Nat)) k 0) =
        mctsRun gMctsNone (fun _ => 0) n
          (mctsIterate gMctsNone 0
            (MTree.mk 0 none ([] : List (MTree Nat Nat)) k 0)).1 := rfl
    rw [hrun, hit, ih (k + 1)]
    have : k + 1 + n = k + (n + 1) := by omega
    rw [this]

/-- C4 counterexample: `availableActions = [0]` is non-empty, yet the
game's own `getActionsForState` returns no actions, so the root never
gains children: after the 100 EASY iterations the root-children visit
sum is 0, not 100. -/
theorem mcts_visit_sum_counterexample :
    childVisitSum (chooseActionMCTS gMctsNone (fun _ => 0) AILevel.easy 0 [0]).2 = 0 ∧
    getIterationsByDifficulty AILevel.easy = 100 ∧
    (0 : Nat) ≠ 100 := by
  refine ⟨?_, rfl, by decide⟩
  unfold chooseActionMCTS
  rw [if_neg (by decide)]
  show childVisitSum (mctsRun gMctsNone (fun _ => 0) (getIterationsByDifficulty AILevel.easy)
      (rootNode 0 : MTree Nat Nat)) = 0
  rw [show (rootNode 0 : MTree Nat Nat) =
      MTree.mk 0 none ([] : List (MTree Nat Nat)) 0 0 from rfl]
  rw [show getIterationsByDifficulty AILevel.easy = 100 from rfl]
  rw [gMctsNone_run 100 0]
  rfl

/-- MCTS game with exactly one legal action everywhere. -/
def gMctsOne : MCTSGame Nat Nat :=
  { currentPlayerId := fun _ => "p1"
    getActionsForState := fun _ _ => [1]
    simulateAction := fun a _ => a
    isTerminalState := fun _ => false
    simulatePlayout := fun _ => 0
    sqrtFn := id
    logFn := id }

theorem mcts_root_children_visit_sum_witness :
    childVisitSum (chooseActionMCTS gMctsOne (fun _ => 0) AILevel.easy 0 [1]).2 = 100 :=
  (mcts_root_children_visit_sum gMctsOne (fun _ => 0) AILevel.easy 0 [1]
    (by decide) rfl (by decide)).1

/-- C7: in MCTS selection, for every node with at least one unvisited
child (`visits == 0`), `getBestChild` returns an unvisited child: an
unvisited child's UCB1 value is `+Infinity`, which is strictly preferred
to the finite UCB1 value of any visited child (playout values are finite
rationals). -/
theorem getBestChild_prefers_unvisited {State Action : Type}
    (g : MCTSGame State Action) (parentVisits : Nat)
    (children : List (MTree State Action)) (c0 : MTree State Action)
    (hmem : c0 ∈ children) (h0 : c0.visits = 0) :
    (∃ p, getBestChild g parentVisits children = some p ∧
      p.2.1.visits = 0 ∧ p.2.2 = posInf) ∧
    ∀ c ∈ children, c.visits ≠ 0 → ucb1 g parentVisits c ≠ posInf := by
  constructor
  · cases children with
    | nil => exact absurd hmem (List.not_mem_nil c0)
    | cons ch cs =>
      refine ⟨bestScanIdx g parentVisits (ch :: cs) 0
        (0, ch, ucb1 g parentVisits ch), rfl, ?_⟩
      have hsnd := bestScanIdx_snd g parentVisits (ch :: cs) 0
        (0, ch, ucb1 g parentVisits ch) rfl
      have hge := (bestScanIdx_ge g parentVisits (ch :: cs) 0
        (0, ch, ucb1 g parentVisits ch)).2 c0 hmem
      have hc0 : ucb1 g parentVisits c0 = posInf := by
        simp [ucb1, h0]
      rw [hc0] at hge
      have htop : (bestScanIdx g parentVisits (ch :: cs) 0
          (0, ch, ucb1 g parentVisits ch)).2.2 = posInf :=
        le_antisymm le_top hge
      have hseltop : ucb1 g parentVisits
          (bestScanIdx g parentVisits (ch :: cs) 0
            (0, ch, ucb1 g parentVisits ch)).2.1 = posInf :=
        hsnd.symm.trans htop
      by_cases hv : (bestScanIdx g parentVisits (ch :: cs) 0
          (0, ch, ucb1 g parentVisits ch)).2.1.visits = 0
      · exact ⟨hv, htop⟩
      · rw [ucb1, if_neg hv] at hseltop
        exact absurd hseltop (finE_ne_top _)
  · intro c _ hc
    rw [ucb1, if_neg hc]
    exact finE_ne_top _

theorem getBestChild_prefers_unvisited_witness :
    (getBestChild gMctsOne 1
        [MTree.mk 1 none [] 1 0, MTree.mk 2 none [] 0 0]).map
      (fun p => p.2.1.visits) = some 0 := by
  obtain ⟨⟨p, hp, h0, _⟩, _⟩ := getBestChild_prefers_unvisited gMctsOne 1
    [MTree.mk 1 none [] 1 0, MTree.mk 2 none [] 0 0] (MTree.mk 2 none [] 0 0)
    (by simp) rfl
  rw [hp]
  simp [h0]

/-! ## Game state and state manager (src/core/GameStateManager.ts) -/

/-- `GamePhase` enum. -/
inductive GamePhase : Type where
  | notStarted
  | setup
  | playing
  | paused
  | completed
deriving DecidableEq

/-- `ITurnInfo`. -/
structure TurnInfo : Type where
  turnNumber : Nat
  currentPlayerId : String
  movesThisTurn : Nat
  timeStarted : Nat
deriving DecidableEq

/-- `IGameState`; players are carried as their ids (names and types play
no role in the verified operations). -/
structure GameState (σ : Type) : Type where
  gameData : σ
  turnInfo : TurnInfo
  players : List String
  phase : GamePhase
  isComplete : Bool
  winnerId : Option String
deriving DecidableEq

/-- `GameStateManager`: canonical current state plus bounded history and
redo stacks.  JS `push`/`pop` operate at the array end; the most recent
element is kept at the head of the list here, so `push` is cons, `pop`
takes the head, and `shift` (dropping the oldest entry on overflow) is
`dropLast`.  `deepClone` is the identity on immutable values. -/
structure StateManager (σ : Type) : Type where
  currentState : Option σ
  history : List σ
  redoStack : List σ
  maxHistorySize : Nat

/-- `new GameStateManager(maxHistorySize)`; the constructor default is
`100`. -/
def initManager (σ : Type) (maxHistorySize : Nat) : StateManager σ :=
  { currentState := none, history := [], redoStack := [],
    maxHistorySize := maxHistorySize }

/-- `GameStateManager.setState`: push the previous current state, replace
the current state, clear the redo stack, and drop the oldest entry when
the bound is exceeded. -/
def setState {σ : Type} (m : StateManager σ) (s : σ) : StateManager σ :=
  let history :=
    match m.currentState with
    | some c => c :: m.history
    | none => m.history
  let history :=
    if m.maxHistorySize < history.length then history.dropLast else history
  { m with currentState := some s, history := history, redoStack := [] }

/-- `GameStateManager.undo`: move current to the redo stack and pop the
history; `false` (with no change) if the history is empty or there is no
current state. -/
def smUndo {σ : Type} (m : StateManager σ) : Bool × StateManager σ :=
  match m.history, m.currentState with
  | [], _ => (false, m)
  | _ :: _, none => (false, m)
  | h :: rest, some c =>
    (true,
      { m with
          currentState := some h
          history := rest
          redoStack := c :: m.redoStack })

/-- `GameStateManager.redo`: move current to the history (with no bound
check) and pop the redo stack; `false` if the redo stack is empty. -/
def smRedo {σ : Type} (m : StateManager σ) : Bool × StateManager σ :=
  match m.redoStack with
  | [] => (false, m)
  | r :: rest =>
    (true,
      { m with
          currentState := some r
          history :=
            match m.currentState with
            | some c => c :: m.history
            | none => m.history
          redoStack := rest })

/-- `GameStateManager.reset`. -/
def smReset {σ : Type} (m : StateManager σ) : StateManager σ :=
  { m with currentState := none, history := [], redoStack := [] }

/-- The state-manager operations quantified over by the history-bound
invariant. -/
inductive SMOp (σ : Type) : Type where
  | setOp (s : σ)
  | undoOp
  | redoOp
  | resetOp

def applySMOp {σ : Type} (m : StateManager σ) : SMOp σ → StateManager σ
  | .setOp s => setState m s
  | .undoOp => (smUndo m).2
  | .redoOp => (smRedo m).2
  | .resetOp => smReset m

def applySMOps {σ : Type} (m : StateManager σ) (ops : List (SMOp σ)) :
    StateManager σ :=
  ops.foldl applySMOp m

/-- The preserved invariant: history and redo stack lengths sum to at
most the bound. -/
def smInv {σ : Type} (m : StateManager σ) (maxSize : Nat) : Prop :=
  m.history.length + m.redoStack.length ≤ maxSize ∧ m.maxHistorySize = maxSize

theorem setState_inv {σ : Type} (m : StateManager σ) (s : σ) (maxSize : Nat)
    (h : smInv m maxSize) : smInv (setState m s) maxSize := by
  obtain ⟨hsum, hmax⟩ := h
  refine ⟨?_, hmax⟩
  have hred : (setState m s).redoStack = [] := rfl
  rw [hred]
  simp only [List.length_nil, Nat.add_zero]
  show (if m.maxHistorySize <
      (match m.currentState with
        | some c => c :: m.history
        | none => m.history).length
    then (match m.currentState with
        | some c => c :: m.history
        | none => m.history).dropLast
    else (match m.currentState with
        | some c => c :: m.history
        | none => m.history)).length ≤ maxSize
  rcases hc : m.currentState with _ | c
  · dsimp only
    split
    · rw [List.length_dropLast]
      omega
    · omega
  · dsimp only
    split
    · rw [List.length_dropLast]
      simp only [List.length_cons]
      omega
    · rename_i hov
      simp only [not_lt, List.length_cons] at hov
      simp only [List.length_cons]
      omega

theorem smUndo_inv {σ : Type} (m : StateManager σ) (maxSize : Nat)
    (h : smInv m maxSize) : smInv (smUndo m).2 maxSize := by
  obtain ⟨hsum, hmax⟩ := h
  unfold smUndo
  rcases hh : m.history with _ | ⟨x, rest⟩
  · exact ⟨hsum, hmax⟩
  · rcases hc : m.currentState with _ | c
    · exact ⟨hsum, hmax⟩
    · refine ⟨?_, hmax⟩
      show rest.length + (c :: m.redoStack).length ≤ maxSize
      rw [hh] at hsum
      simp only [List.length_cons] at hsum ⊢
      omega

theorem smRedo_inv {σ : Type} (m : StateManager σ) (maxSize : Nat)
    (h : smInv m maxSize) : smInv (smRedo m).2 maxSize := by
  obtain ⟨hsum, hmax⟩ := h
  unfold smRedo
  rcases hr : m.redoStack with _ | ⟨r, rest⟩
  · exact ⟨hsum, hmax⟩
  · refine ⟨?_, hmax⟩
    show (match m.currentState with
        | some c => c :: m.history
        | none => m.history).length + rest.length ≤ maxSize
    rw [hr] at hsum
    rcases hc : m.currentState with _ | c
    · dsimp only
      simp only [List.length_cons] at hsum
      omega
    · dsimp only
      simp only [List.length_cons] at hsum ⊢
      omega

theorem smReset_inv {σ : Type} (m : StateManager σ) (maxSize : Nat)
    (h : smInv m maxSize) : smInv (smReset m) maxSize :=
  ⟨by simp [smReset], h.2⟩

theorem applySMOp_inv {σ : Type} (m : StateManager σ) (op : SMOp σ)
    (maxSize : Nat) (h : smInv m maxSize) : smInv (applySMOp m op) maxSize := by
  cases op with
  | setOp s => exact setState_inv m s maxSize h
  | undoOp => exact smUndo_inv m maxSize h
  | redoOp => exact smRedo_inv m maxSize h
  | resetOp => exact smReset_inv m maxSize h

theorem applySMOps_inv {σ : Type} (maxSize : Nat) (ops : List (SMOp σ)) :
    ∀ (m : StateManager σ), smInv m maxSize →
      smInv (applySMOps m ops) maxSize := by
  induction ops with
  | nil => intro m h; exact h
  | cons op rest ih =>
    intro m h
    exact ih (applySMOp m op) (applySMOp_inv m op maxSize h)

/-- C9: for every sequence of commit (`setState`), `undo`, `redo` and
`reset` operations starting from a fresh manager, the history stack's
length never exceeds the configured maximum (default 100); and whenever a
commit would exceed the bound (history already at the bound with a
current state present), the oldest history entry is silently dropped. -/
theorem history_bounded_and_drops_oldest {σ : Type} (maxSize : Nat)
    (ops : List (SMOp σ)) :
    (applySMOps (initManager σ maxSize) ops).history.length ≤ maxSize ∧
    (∀ (m : StateManager σ) (c s : σ),
      m.currentState = some c → m.history.length = m.maxHistorySize →
      (setState m s).history = (c :: m.history).dropLast ∧
      (setState m s).history.length = m.maxHistorySize) := by
  constructor
  · have h := applySMOps_inv maxSize ops (initManager σ maxSize)
      ⟨by simp [initManager], rfl⟩
    have h1 := h.1
    omega
  · intro m c s hcur hlen
    simp only [setState, hcur]
    have hov : m.maxHistorySize < (c :: m.history).length := by
      simp only [List.length_cons]
      omega
    rw [if_pos hov]
    refine ⟨rfl, ?_⟩
    simp only [List.length_dropLast, List.length_cons]
    omega

theorem history_bounded_witness :
    (applySMOps (initManager Nat 1)
      [SMOp.setOp 1, SMOp.setOp 2, SMOp.setOp 3]).history.length ≤ 1 ∧
    (setState (⟨some 5, [4], [], 1⟩ : StateManager Nat) 6).history = [5] ∧
    (setState (⟨some 5, [4], [], 1⟩ : StateManager Nat) 6).history.length = 1 := by
  refine ⟨(history_bounded_and_drops_oldest 1
    [SMOp.setOp 1, SMOp.setOp 2, SMOp.setOp 3]).1, ?_, ?_⟩
  · exact ((history_bounded_and_drops_oldest 1
      ([] : List (SMOp Nat))).2 ⟨some 5, [4], [], 1⟩ 5 6 rfl rfl).1
  · exact ((history_bounded_and_drops_oldest 1
      ([] : List (SMOp Nat))).2 ⟨some 5, [4], [], 1⟩ 5 6 rfl rfl).2

/-! ## Game controller (src/core/GameController.ts, src/core/TurnManager.ts,
src/core/interfaces/IGameRules.ts) -/

/-- `IActionValidation`. -/
structure ActionValidation : Type where
  isValid : Bool
  reason : Option String

/-- `ISideEffect` (the opaque `data` payload is dropped). -/
structure SideEffect : Type where
  type : String
  description : String

/-- `IActionResult`; `error` carries the error message. -/
structure ActionResult (σ : Type) : Type where
  success : Bool
  newState : Option (GameState σ)
  error : Option String
  sideEffects : List SideEffect

/-- `IGameAction`. -/
structure GameAction (α : Type) : Type where
  type : String
  playerId : String
  data : α
  timestamp : Option Nat

/-- `rules.checkEndCondition` result. -/
structure EndCheck : Type where
  isEnded : Bool
  winnerId : Option String
  reason : Option String

/-- The consumed rules contract `IGameRules` (the config is reduced to
its ordered player-id list, the only part the controller reads). -/
structure GameRules (σ α : Type) : Type where
  createInitialState : List String → GameState σ
  validateAction : GameAction α → GameState σ → ActionValidation
  executeAction : GameAction α → GameState σ → ActionResult σ
  getValidActions : GameState σ → List (GameAction α)
  checkEndCondition : GameState σ → EndCheck

/-- The event taxonomy emitted synchronously by the controller. -/
inductive GameEvent (σ α : Type) : Type where
  | gameStarted (state : GameState σ)
  | turnStarted (playerId : String) (turnNumber : Nat)
  | turnEnded (playerId : String) (turnNumber : Nat)
  | actionExecuted (action : GameAction α)
  | sideEffect (effect : SideEffect)
  | gameEnded (winnerId : Option String) (reason : Option String)
  | actionUndone (state : GameState σ)
  | actionRedone (state : GameState σ)
  | gameReset

/-- `GameController` together with its embedded `TurnManager` (player
list and current index) and the turn-order strategy (pure; the
constructor default is `sequential`). -/
structure Controller (σ α : Type) : Type where
  rules : GameRules σ α
  stateManager : StateManager (GameState σ)
  turnPlayers : List String
  currentPlayerIndex : Nat
  strategy : String → List String → String

/-- JS `Array.prototype.indexOf`: `-1` when the element is absent. -/
def jsIndexOf (l : List String) (x : String) : Int :=
  if x ∈ l then (l.indexOf x : Int) else -1

/-- `TurnOrderStrategies.sequential`: cyclic successor by index
(`players[(indexOf(current) + 1) % players.length]`; an absent current
player indexes to `players[0]`).  The empty string stands for the
`undefined` an empty player list would produce. -/
def seqStrategy (currentPlayerId : String) (players : List String) : String :=
  match players.get?
      (((jsIndexOf players currentPlayerId + 1) % (players.length : Int)).toNat) with
  | some p => p
  | none => ""

/-- `TurnManager.getNextPlayer`: reads the manager's own
`players[currentPlayerIndex]` — not the game state's `currentPlayerId` —
applies the strategy to the full id list, and re-finds the index.
`none` models the thrown error when the player list is empty (or the
index is out of range) and when the strategy's answer is not a player
(`findIndex === -1`). -/
def tmGetNextPlayer {σ α : Type} (c : Controller σ α) :
    Option (String × Controller σ α) :=
  match c.turnPlayers.get? c.currentPlayerIndex with
  | none => none
  | some cur =>
    let next := c.strategy cur c.turnPlayers
    if next ∈ c.turnPlayers then
      some (next, { c with currentPlayerIndex := c.turnPlayers.indexOf next })
    else none

/-- `GameController.endTurn` with the current wall-clock time `now`
injected for `Date.now()`: no-op when complete, else advance the turn
manager, rewrite `turnInfo` (next player, `turnNumber + 1`,
`movesThisTurn = 0`, fresh `timeStarted`), commit, and emit
`turnEnded(old)` then `turnStarted(new)`.  `none` models the
`Game not initialized` / turn-manager throw paths. -/
def endTurn {σ α : Type} (c : Controller σ α) (now : Nat) :
    Option (Controller σ α × List (GameEvent σ α)) :=
  match c.stateManager.currentState with
  | none => none
  | some st =>
    if st.isComplete then some (c, [])
    else
      match tmGetNextPlayer c with
      | none => none
      | some (next, c1) =>
        let newState : GameState σ :=
          { st with turnInfo :=
            { st.turnInfo with
                currentPlayerId := next
                turnNumber := st.turnInfo.turnNumber + 1
                movesThisTurn := 0
                timeStarted := now } }
        some ({ c1 with stateManager := setState c1.stateManager newState },
          [.turnEnded st.turnInfo.currentPlayerId st.turnInfo.turnNumber,
           .turnStarted next (st.turnInfo.turnNumber + 1)])

/-- `GameController.executeAction`: validate (returning a failure result
with no mutation and no events when invalid), execute via the rules,
commit and emit on success, then check the end condition and, when the
game ended, commit the terminal state and emit `gameEnded`.  The rules'
result is returned verbatim.  `none` models the `Game not initialized`
throw. -/
def executeAction {σ α : Type} (c : Controller σ α) (a : GameAction α) :
    Option (ActionResult σ × Controller σ α × List (GameEvent σ α)) :=
  match c.stateManager.currentState with
  | none => none
  | some st =>
    let validation := c.rules.validateAction a st
    if validation.isValid = false then
      some ({ success := false, newState := none,
              error := some (validation.reason.getD "Invalid action"),
              sideEffects := [] }, c, [])
    else
      let result := c.rules.executeAction a st
      match result.success, result.newState with
      | true, some ns =>
        let c2 := { c with stateManager := setState c.stateManager ns }
        let events := GameEvent.actionExecuted a ::
          result.sideEffects.map GameEvent.sideEffect
        let endCheck := c.rules.checkEndCondition ns
        if endCheck.isEnded then
          let endState := { ns with
            isComplete := true
            winnerId := endCheck.winnerId
            phase := GamePhase.completed }
          some (result,
            { c2 with stateManager := setState c2.stateManager endState },
            events ++ [.gameEnded endCheck.winnerId endCheck.reason])
        else some (result, c2, events)
      | _, _ => some (result, c, [])

/-- `GameController.undo`: delegate to the state manager; emit
`actionUndone` with the new current state on success. -/
def ctrlUndo {σ α : Type} (c : Controller σ α) :
    Option (Bool × Controller σ α × List (GameEvent σ α)) :=
  let r := smUndo c.stateManager
  if r.1 then
    match r.2.currentState with
    | none => none
    | some st => some (true, { c with stateManager := r.2 }, [.actionUndone st])
  else some (false, c, [])

/-- `GameController.redo`: delegate to the state manager; emit
`actionRedone` with the new current state on success. -/
def ctrlRedo {σ α : Type} (c : Controller σ α) :
    Option (Bool × Controller σ α × List (GameEvent σ α)) :=
  let r := smRedo c.stateManager
  if r.1 then
    match r.2.currentState with
    | none => none
    | some st => some (true, { c with stateManager := r.2 }, [.actionRedone st])
  else some (false, c, [])

/-- `GameController.initialize` plus `validateConfig`: fewer than two
players or duplicate ids are fatal (`none`); otherwise build the initial
state via the rules, commit it into a fresh manager (bound 100), start
the turn manager at index 0 with the default sequential strategy, and
emit `gameStarted` then `turnStarted`. -/
def initGame {σ α : Type} (rules : GameRules σ α) (players : List String) :
    Option (Controller σ α × List (GameEvent σ α)) :=
  if players.length < 2 then none
  else if players.Nodup then
    let initialState := rules.createInitialState players
    some ({ rules := rules,
            stateManager := setState (initManager (GameState σ) 100) initialState,
            turnPlayers := players,
            currentPlayerIndex := 0,
            strategy := seqStrategy },
      [.gameStarted initialState,
       .turnStarted initialState.turnInfo.currentPlayerId
         initialState.turnInfo.turnNumber])
  else none

/-- C3: for every action reported invalid by `rules.validateAction`, an
initialized `GameController.executeAction` returns `success:false` with
the validation reason as error (default "Invalid action"), leaves the
whole controller — canonical current state, history stack and redo
stack — unchanged, and emits no events. -/
theorem executeAction_invalid_no_mutation {σ α : Type} (c : Controller σ α)
    (a : GameAction α) (st : GameState σ)
    (hinit : c.stateManager.currentState = some st)
    (hinvalid : (c.rules.validateAction a st).isValid = false) :
    executeAction c a = some
      ({ success := false, newState := none,
         error := some ((c.rules.validateAction a st).reason.getD "Invalid action"),
         sideEffects := [] }, c, []) := by
  unfold executeAction
  rw [hinit]
  simp [hinvalid]

/-- Trivial rules over a unit payload that reject every action. -/
def rulesReject : GameRules Unit Unit :=
  { createInitialState := fun ps =>
      ⟨(), ⟨1, "p1", 0, 0⟩, ps, GamePhase.playing, false, none⟩
    validateAction := fun _ _ => ⟨false, some "Not your turn"⟩
    executeAction := fun _ st => ⟨true, some st, none, []⟩
    getValidActions := fun _ => []
    checkEndCondition := fun _ => ⟨false, none, none⟩ }

/-- A concrete initialized controller for the unit game. -/
def ctrlReject : Controller Unit Unit :=
  { rules := rulesReject
    stateManager := setState (initManager (GameState Unit) 100)
      (rulesReject.createInitialState ["p1", "p2"])
    turnPlayers := ["p1", "p2"]
    currentPlayerIndex := 0
    strategy := seqStrategy }

theorem executeAction_invalid_witness :
    executeAction ctrlReject ⟨"draw", "p1", (), none⟩ = some
      ({ success := false, newState := none,
         error := some "Not your turn", sideEffects := [] }, ctrlReject, []) :=
  executeAction_invalid_no_mutation ctrlReject ⟨"draw", "p1", (), none⟩
    (rulesReject.createInitialState ["p1", "p2"]) rfl rfl

/-- C5: for every initialized controller (a current state exists) whose
history stack is non-empty, `undo()` then `redo()` both return `true`
and restore a current state structurally equal to the state immediately
before the undo, at any history depth. -/
theorem undo_redo_roundtrip {σ α : Type} (c : Controller σ α)
    (st : GameState σ)
    (hcur : c.stateManager.currentState = some st)
    (hhist : c.stateManager.history ≠ []) :
    ∃ c1 ev1, ctrlUndo c = some (true, c1, ev1) ∧
      ∃ c2 ev2, ctrlRedo c1 = some (true, c2, ev2) ∧
        c2.stateManager.currentState = some st := by
  rcases hh : c.stateManager.history with _ | ⟨h, rest⟩
  · exact absurd hh hhist
  · have hu : ctrlUndo c = some (true,
      { c with stateManager :=
        { c.stateManager with
            currentState := some h
            history := rest
            redoStack := st :: c.stateManager.redoStack } },
      [GameEvent.actionUndone h]) := by
      unfold ctrlUndo smUndo
      rw [hh, hcur]
      rfl
    exact ⟨_, _, hu, _, _, rfl, rfl⟩

/-- Two distinguishable unit-game states. -/
def mkStateU (n : Nat) : GameState Unit :=
  ⟨(), ⟨n, "p1", 0, 0⟩, ["p1", "p2"], GamePhase.playing, false, none⟩

/-- A controller holding state 2 with state 1 in its history. -/
def ctrlHist : Controller Unit Unit :=
  { rules := rulesReject
    stateManager := ⟨some (mkStateU 2), [mkStateU 1], [], 100⟩
    turnPlayers := ["p1", "p2"]
    currentPlayerIndex := 0
    strategy := seqStrategy }

theorem undo_redo_roundtrip_witness :
    ((ctrlUndo ctrlHist).bind (fun p =>
      (ctrlRedo p.2.1).map (fun q =>
        (p.1, q.1, q.2.1.stateManager.currentState)))) =
      some (true, true, some (mkStateU 2)) := by
  obtain ⟨c1, ev1, h1, c2, ev2, h2, h3⟩ :=
    undo_redo_roundtrip ctrlHist (mkStateU 2) rfl (by simp [ctrlHist])
  rw [h1]
  have hb : (some (true, c1, ev1)).bind (fun p =>
      (ctrlRedo p.2.1).map (fun q =>
        (p.1, q.1, q.2.1.stateManager.currentState))) =
      (ctrlRedo c1).map (fun q =>
        (true, q.1, q.2.1.stateManager.currentState)) := rfl
  rw [hb, h2]
  simp [h3]

/-- A reusable fact: `setState` makes its argument the current state. -/
theorem setState_currentState {σ : Type} (m : StateManager σ) (s : σ) :
    (setState m s).currentState = some s := rfl

/-- C2 (amended): for every initialized, non-complete game, `endTurn()`
computes the next player by applying the turn-order strategy to the full
ordered player-id list starting from the TURN MANAGER's internally
tracked current player (`players[currentPlayerIndex]`, initialized to
the first configured player and advanced only by `endTurn`) — not from
the state's `turnInfo.currentPlayerId`, with which it coincides only
when the initial state starts at the first player and no undo/redo or
rules-driven player change desynchronizes them.  It then sets
`turnInfo.currentPlayerId` to that player, increments `turnNumber` by
exactly 1, resets `movesThisTurn` to 0, commits, and emits
`turnEnded(old)` then `turnStarted(new)`. -/
theorem endTurn_rotates_from_turn_manager {σ α : Type} (c : Controller σ α)
    (st : GameState σ) (cur : String) (now : Nat)
    (hcur : c.stateManager.currentState = some st)
    (hcomplete : st.isComplete = false)
    (hidx : c.turnPlayers.get? c.currentPlayerIndex = some cur)
    (hmem : c.strategy cur c.turnPlayers ∈ c.turnPlayers) :
    ∃ c', endTurn c now = some (c',
        [.turnEnded st.turnInfo.currentPlayerId st.turnInfo.turnNumber,
         .turnStarted (c.strategy cur c.turnPlayers) (st.turnInfo.turnNumber + 1)]) ∧
      c'.stateManager.currentState = some
        { st with turnInfo :=
          { st.turnInfo with
              currentPlayerId := c.strategy cur c.turnPlayers
              turnNumber := st.turnInfo.turnNumber + 1
              movesThisTurn := 0
              timeStarted := now } } := by
  have htm : tmGetNextPlayer c = some (c.strategy cur c.turnPlayers,
      { c with currentPlayerIndex :=
          c.turnPlayers.indexOf (c.strategy cur c.turnPlayers) }) := by
    unfold tmGetNextPlayer
    rw [hidx]
    simp only [if_pos hmem]
  unfold endTurn
  rw [hcur]
  simp only [hcomplete]
  rw [htm]
  exact ⟨_, rfl, rfl⟩

/-- Rules whose initial state starts at the SECOND player (`"p2"`),
while the turn manager always starts at index 0. -/
def rulesP2First : GameRules Unit Unit :=
  { createInitialState := fun ps =>
      ⟨(), ⟨1, "p2", 0, 0⟩, ps, GamePhase.playing, false, none⟩
    validateAction := fun _ _ => ⟨true, none⟩
    executeAction := fun _ st => ⟨true, some st, none, []⟩
    getValidActions := fun _ => []
    checkEndCondition := fun _ => ⟨false, none, none⟩ }

/-- The controller `initialize({players:["p1","p2"]})` produces for
`rulesP2First`. -/
def ctrlP2First : Controller Unit Unit :=
  { rules := rulesP2First
    stateManager := setState (initManager (GameState Unit) 100)
      (rulesP2First.createInitialState ["p1", "p2"])
    turnPlayers := ["p1", "p2"]
    currentPlayerIndex := 0
    strategy := seqStrategy }

/-- C2 counterexample: the game is initialized with the state's
`currentPlayerId = "p2"`; the claim says the next player is the strategy
applied from the state's current player — `sequential("p2") = "p1"` —
but `endTurn` applies the strategy from the turn manager's index-0
player `"p1"`, yielding `"p2"` again. -/
theorem endTurn_counterexample :
    initGame rulesP2First ["p1", "p2"] = some (ctrlP2First,
      [.gameStarted (rulesP2First.createInitialState ["p1", "p2"]),
       .turnStarted "p2" 1]) ∧
    ((ctrlP2First.stateManager.currentState).map
      (fun st => st.turnInfo.currentPlayerId)) = some "p2" ∧
    ((endTurn ctrlP2First 5).map (fun p =>
      (p.1.stateManager.currentState).map
        (fun st => st.turnInfo.currentPlayerId))) = some (some "p2") ∧
    seqStrategy "p2" ["p1", "p2"] = "p1" ∧
    ("p2" : String) ≠ "p1" := by
  refine ⟨?_, rfl, ?_, ?_, by decide⟩
  · rfl
  · rfl
  · rfl

theorem endTurn_rotates_witness :
    ((endTurn ctrlReject 7).map (fun p =>
      (p.1.stateManager.currentState).map (fun st =>
        (st.turnInfo.currentPlayerId, st.turnInfo.turnNumber,
          st.turnInfo.movesThisTurn, st.turnInfo.timeStarted)))) =
      some (some ("p2", 2, 0, 7)) := by
  obtain ⟨c', h1, h2⟩ := endTurn_rotates_from_turn_manager ctrlReject
    (rulesReject.createInitialState ["p1", "p2"]) "p1" 7 rfl rfl rfl
    (by decide)
  rw [h1]
  simp only [Option.map_some']
  rw [h2]
  rfl
